import Mathlib

/-!
Verification of the pureapi-core routing and dispatch core.

This file shallowly embeds the router (`router/router.go`, `router/methods.go`),
the tracking response writer (`server/response_writer.go`) and the dispatch
handler (`server` package: `ServeHTTP`, panic recovery, HEAD/OPTIONS handling,
body limiting) as executable Lean definitions, and proves the specified
properties about them.

Modelling conventions:
* Go strings are Lean `String`s; all string manipulation is re-implemented by
  structural recursion on the character list so that concrete instances reduce
  by `decide`/`rfl`.  Byte-level vs. character-level indexing coincides on the
  ASCII inputs routing deals with.
* A Go `map[string]T` is modelled as an insertion-ordered association list
  with unique keys (`GoMap`); `mapLookup`/`mapSet`/`mapDelete` mirror Go map
  reads, writes and deletes.  A Go map that may be `nil` (observably different
  from an empty map) is modelled as an `Option` of the list.
* Handlers (`http.Handler`) are opaque to the router, so the router model is
  parametric in the handler type `H`.
-/

/-- Association-list model of a Go `map[string]α`. -/
abbrev GoMap (α : Type) := List (String × α)

/-- Go map read: value of the binding for `k`, if any. -/
def mapLookup {α : Type} (m : GoMap α) (k : String) : Option α :=
  match m with
  | [] => none
  | (k', v) :: rest => if k' = k then some v else mapLookup rest k

/-- Go map write `m[k] = v`: replaces the existing binding in place, or
appends a new one. -/
def mapSet {α : Type} (m : GoMap α) (k : String) (v : α) : GoMap α :=
  match m with
  | [] => [(k, v)]
  | (k', v') :: rest => if k' = k then (k, v) :: rest else (k', v') :: mapSet rest k v

/-- Go map delete `delete(m, k)`: removes the binding for `k`, if any. -/
def mapDelete {α : Type} (m : GoMap α) (k : String) : GoMap α :=
  match m with
  | [] => []
  | (k', v') :: rest => if k' = k then rest else (k', v') :: mapDelete rest k

/-- `strings.Trim(p, "/")`: strip all leading and trailing slashes. -/
def trimSlashes (s : String) : String :=
  ⟨((s.toList.dropWhile (· == '/')).reverse.dropWhile (· == '/')).reverse⟩

/-- `strings.Split(s, "/")` on the character list (the separator is always
the single character `/` in this code base). -/
def splitSlashList : List Char → List String
  | [] => [""]
  | c :: rest =>
      let r := splitSlashList rest
      if c = '/' then "" :: r
      else
        match r with
        | s :: tail => (⟨c :: s.toList⟩ : String) :: tail
        | [] => [⟨[c]⟩]

/-- `splitPath` from `router.go`: `"/"` maps to a single empty segment,
otherwise trim slashes and split on `/`. -/
def splitPath (p : String) : List String :=
  if p = "/" then [""] else splitSlashList (trimSlashes p).toList

/-- `isParamSeg` from `router.go`: a segment is a parameter if it starts with
`:`, or has length > 1, starts with `{` and ends with `}`. -/
def isParamSeg (s : String) : Bool :=
  match s.toList with
  | [] => false
  | c :: rest =>
      c = ':' || (c = '{' && !rest.isEmpty && rest.getLast? = some '}')

/-- `trimDelims` from `router.go`: strip a leading `:`, or a surrounding
`{`/`}` pair. -/
def trimDelims (s : String) : String :=
  match s.toList with
  | [] => s
  | c :: rest =>
      if c = ':' then ⟨rest⟩
      else if c = '{' && rest.getLast? = some '}' then ⟨rest.dropLast⟩
      else s

/-- `segment` from `router.go`. -/
structure Segment where
  lit : String
  name : String
  isParam : Bool
deriving Repr, DecidableEq

/-- `hasParam` from `router.go`. -/
def hasParam (p : String) : Bool :=
  (splitPath p).any isParamSeg

/-- `compile` from `router.go`: pattern string to segment list. -/
def compile (pat : String) : List Segment :=
  (splitPath pat).map fun p =>
    if isParamSeg p then { lit := "", name := trimDelims p, isParam := true }
    else { lit := p, name := "", isParam := false }

/-- `Params` from `router.go`: a Go map that may be `nil` (`none`). -/
abbrev Params := Option (GoMap String)

/-- `routeEntry` from `router.go`, parametric in the opaque handler type. -/
structure RouteEntry (H : Type) where
  pattern : String
  segs : List Segment
  h : H
deriving Repr, DecidableEq

/-- `Matched` from `router.go`.  `BuiltinRouter.Match` never sets the
`Endpoint any` field, so it is omitted. -/
structure Matched (H : Type) where
  handler : H
  params : Params
deriving Repr, DecidableEq

/-- `BuiltinRouter` from `router.go`: exact table and ordered parameterized
entries, both per method. -/
structure BuiltinRouter (H : Type) where
  exact : GoMap (GoMap H)
  param : GoMap (List (RouteEntry H))
deriving Repr, DecidableEq

/-- `NewBuiltinRouter`. -/
def NewBuiltinRouter (H : Type) : BuiltinRouter H := ⟨[], []⟩

namespace BuiltinRouter

/-- `BuiltinRouter.Register` from `router.go`.  The handler argument is an
`Option` because a Go `http.Handler` may be `nil`. -/
def Register {H : Type} (r : BuiltinRouter H) (method pattern : String) :
    Option H → BuiltinRouter H
  | none => r
  | some h =>
      if method = "" ∨ pattern = "" then r
      else if !hasParam pattern then
        let mm := (mapLookup r.exact method).getD []
        { r with exact := mapSet r.exact method (mapSet mm pattern h) }
      else
        let entries := (mapLookup r.param method).getD []
        let e : RouteEntry H := { pattern := pattern, segs := compile pattern, h := h }
        { r with param := mapSet r.param method (entries ++ [e]) }

/-- `BuiltinRouter.Unregister` from `router.go`. -/
def Unregister {H : Type} (r : BuiltinRouter H) (method pattern : String) :
    BuiltinRouter H :=
  let exact' :=
    match mapLookup r.exact method with
    | none => r.exact
    | some mm => mapSet r.exact method (mapDelete mm pattern)
  let entries := (mapLookup r.param method).getD []
  let param' :=
    if entries.length > 0 then
      let dst := entries.filter fun e => e.pattern ≠ pattern
      if dst.isEmpty then mapDelete r.param method
      else mapSet r.param method dst
    else r.param
  { exact := exact', param := param' }

end BuiltinRouter

/-- The body shared by `match` (`router.go`) and `matchSegments`
(`methods.go`), which are textually identical in the source: walk the
segments against the path parts, requiring literal equality for literal
segments and a non-empty part for parameter segments, accumulating the
parameter map. -/
def matchGo : List Segment → List String → GoMap String → Option (GoMap String)
  | [], [], acc => some acc
  | sg :: segs, pp :: parts, acc =>
      if sg.isParam then
        if pp = "" then none
        else matchGo segs parts (mapSet acc sg.name pp)
      else if sg.lit = pp then matchGo segs parts acc
      else none
  | _ :: _, [], _ => none
  | [], _ :: _, _ => none

/-- `match` from `router.go` (and `matchSegments` from `methods.go`): returns
the bound parameters, or `none` (a `nil` map) when the path does not match. -/
def matchSegs (segs : List Segment) (path : String) : Params :=
  let parts := splitPath path
  if parts.length = segs.length then matchGo segs parts [] else none

/-- The per-entry probe of `Match`'s parameterized scan (the loop body of
`Match` in `router.go`): a qualifying entry yields its handler and the bound
parameters. -/
def probeEntry {H : Type} (path : String) (e : RouteEntry H) : Option (Matched H) :=
  match matchSegs e.segs path with
  | some ps => some { handler := e.h, params := some ps }
  | none => none

namespace BuiltinRouter

/-- `BuiltinRouter.Match` from `router.go`, taking the request's method and
path: exact table first (empty, non-nil params on a hit), then the method's
parameterized entries in registration order, else `none`. -/
def Match {H : Type} (r : BuiltinRouter H) (method path : String) :
    Option (Matched H) :=
  let fromParam : Option (Matched H) :=
    ((mapLookup r.param method).getD []).findSome? (probeEntry path)
  match mapLookup r.exact method with
  | some mm =>
      match mapLookup mm path with
      | some h => some { handler := h, params := some [] }
      | none => fromParam
  | none => fromParam

end BuiltinRouter

/-- Insert a method into the set-as-list if absent (`set[m] = struct{}{}`). -/
def setInsert (s : List String) (m : String) : List String :=
  if m ∈ s then s else s ++ [m]

/-- Lexicographic (byte-order) comparison of strings, as `slices.Sort` uses.
Implemented structurally on the character lists so it reduces. -/
def lexLe : List Char → List Char → Bool
  | [], _ => true
  | _ :: _, [] => false
  | a :: as, b :: bs =>
      if a < b then true
      else if b < a then false
      else lexLe as bs

/-- String order used to model `slices.Sort` for custom methods. -/
def strLe (a b : String) : Prop := lexLe a.toList b.toList = true

instance : DecidableRel strLe := fun a b => by
  unfold strLe; infer_instance

/-- Insertion sort modelling `slices.Sort` on `[]string`: since equal strings
are identical, every `≤`-sorted permutation of a list is the same list, so
the choice of sorting algorithm is immaterial. -/
def sortStrings (l : List String) : List String :=
  List.insertionSort strLe l

/-- The fixed preferred method order of `MethodsFor` / `stableAllow`. -/
def methodOrder : List String :=
  ["OPTIONS", "GET", "HEAD", "POST", "PUT", "PATCH", "DELETE"]

namespace BuiltinRouter

/-- `BuiltinRouter.MethodsFor` from `methods.go`: union of methods whose
exact or parameterized patterns match the path, augmented with HEAD (under
GET) and OPTIONS (when non-empty), emitted in the fixed preferred order
followed by the remaining custom methods sorted lexicographically. -/
def MethodsFor {H : Type} (r : BuiltinRouter H) (path : String) : List String :=
  let s1 := r.exact.foldl
    (fun s p => if (mapLookup p.2 path).isSome then setInsert s p.1 else s) []
  let s2 := r.param.foldl
    (fun s p => if p.2.any (fun e => (matchSegs e.segs path).isSome)
                then setInsert s p.1 else s) s1
  let s3 := if "GET" ∈ s2 then setInsert s2 "HEAD" else s2
  let s4 := if s3.isEmpty then s3 else setInsert s3 "OPTIONS"
  (methodOrder.filter (· ∈ s4)) ++ sortStrings (s4.filter (· ∉ methodOrder))

end BuiltinRouter

/-!
## Declarative matching predicates

These restate, in the spec's own words, when a compiled entry matches a
concrete path: equal segment count, literal segments equal to the
corresponding path segment, parameter segments bound to a non-empty path
segment.  They are deliberately independent of the recursive `matchGo`
implementation; the lemmas below connect the two.
-/

/-- One segment of a pattern matches one segment of a path. -/
def SegMatches (sg : Segment) (pp : String) : Prop :=
  (sg.isParam = true ∧ pp ≠ "") ∨ (sg.isParam = false ∧ sg.lit = pp)

instance (sg : Segment) (pp : String) : Decidable (SegMatches sg pp) := by
  unfold SegMatches; infer_instance

/-- A compiled entry qualifies for a path: same segment count and every
segment matches pointwise. -/
def Qualifies (segs : List Segment) (path : String) : Prop :=
  (splitPath path).length = segs.length ∧
  ∀ p ∈ segs.zip (splitPath path), SegMatches p.1 p.2

instance (segs : List Segment) (path : String) : Decidable (Qualifies segs path) := by
  unfold Qualifies; infer_instance

/-- Parameter names occurring in a segment list. -/
def paramNames (segs : List Segment) : List String :=
  (segs.filter (·.isParam)).map (·.name)

/-- Concrete router used by the C1 witness: one exact and one parameterized
GET route. -/
def rC1 : BuiltinRouter Nat :=
  ((NewBuiltinRouter Nat).Register "GET" "/p" (some 7)).Register "GET" "/q/:id" (some 8)

/-- Well-formedness of the model: outer tables have no duplicate method
keys (inherent to Go maps). -/
def WF {H : Type} (r : BuiltinRouter H) : Prop :=
  (r.exact.map Prod.fst).Nodup ∧ (r.param.map Prod.fst).Nodup

instance {H : Type} (r : BuiltinRouter H) : Decidable (WF r) := by
  unfold WF; infer_instance

/-- Shared duplicate-registration router for the C3/C9 counterexamples:
`/a/:x` registered twice for GET. -/
def rDup : BuiltinRouter Nat :=
  ((NewBuiltinRouter Nat).Register "GET" "/a/:x" (some 1)).Register
    "GET" "/a/:x" (some 2)

/-!
## C2: `MethodsFor`
-/

/-- The spec's raw allow-set membership: some registered pattern of method
`m` (exact or parameterized) matches the concrete `path`.  Stated
declaratively over the table contents, independently of `MethodsFor`'s
fold-and-sort implementation. -/
def allows {H : Type} (r : BuiltinRouter H) (path m : String) : Prop :=
  (∃ p ∈ r.exact, p.1 = m ∧ (mapLookup p.2 path).isSome = true)
  ∨ (∃ p ∈ r.param, p.1 = m ∧ ∃ e ∈ p.2, Qualifies e.segs path)

instance {H : Type} (r : BuiltinRouter H) (path m : String) :
    Decidable (allows r path m) := by
  unfold allows; infer_instance

/-- Index of a string in a list (list length when absent). -/
def idxOf : List String → String → Nat
  | [], _ => 0
  | x :: xs, m => if x = m then 0 else idxOf xs m + 1

/-- Rank of a method in the fixed preferred order; customs rank 7. -/
def methodRank (m : String) : Nat := idxOf methodOrder m

/-- The strict order the claim asserts for `MethodsFor`'s output: fixed-order
methods by their position, then custom methods lexicographically. -/
def specLt (a b : String) : Prop :=
  methodRank a < methodRank b
  ∨ (methodRank a = methodOrder.length ∧ methodRank b = methodOrder.length
      ∧ a ≠ b ∧ strLe a b)

instance (a b : String) : Decidable (specLt a b) := by
  unfold specLt; infer_instance

/-- GET then POST on `/x`. -/
def rGP : BuiltinRouter Nat :=
  ((NewBuiltinRouter Nat).Register "GET" "/x" (some 1)).Register
    "POST" "/x" (some 2)

/-- POST then GET on `/x`. -/
def rPG : BuiltinRouter Nat :=
  ((NewBuiltinRouter Nat).Register "POST" "/x" (some 2)).Register
    "GET" "/x" (some 1)

/-- The raw union set built by `MethodsFor`'s two loops. -/
def rawSet {H : Type} (r : BuiltinRouter H) (path : String) : List String :=
  r.param.foldl
    (fun s p => if p.2.any (fun e => (matchSegs e.segs path).isSome)
                then setInsert s p.1 else s)
    (r.exact.foldl
      (fun s p => if (mapLookup p.2 path).isSome then setInsert s p.1 else s) [])

/-- The augmented set (HEAD under GET, OPTIONS when non-empty). -/
def augSet {H : Type} (r : BuiltinRouter H) (path : String) : List String :=
  let s2 := rawSet r path
  let s3 := if "GET" ∈ s2 then setInsert s2 "HEAD" else s2
  if s3.isEmpty then s3 else setInsert s3 "OPTIONS"

/-!
## The dispatch handler (`server` package)

The response sink is modelled as the ordered trace of operations forwarded
downstream; `TrackState` embeds `trackingResponseWriter` from
`server/response_writer.go` together with that trace.  A handler's behaviour
is a function from the request to the list of writer operations it performs
plus an optional panic value (panic payloads are modelled as strings).
-/

/-- One operation performed on an `http.ResponseWriter`. -/
inductive WOp where
  | setHeader (k v : String)
  | writeHeader (code : Nat)
  | write (data : String)
deriving Repr, DecidableEq

/-- `trackingResponseWriter` state plus the operations actually forwarded
downstream. -/
structure TrackState where
  wroteHeader : Bool
  bytesWritten : Nat
  out : List WOp
deriving Repr, DecidableEq

/-- `newTrackingResponseWriter`: fresh state, nothing forwarded yet. -/
def initTrack : TrackState := { wroteHeader := false, bytesWritten := 0, out := [] }

/-- `trackingResponseWriter.WriteHeader`: forward only the first status. -/
def twWriteHeader (s : TrackState) (code : Nat) : TrackState :=
  if s.wroteHeader then s
  else { s with wroteHeader := true, out := s.out ++ [WOp.writeHeader code] }

/-- `trackingResponseWriter.Write`: implicit 200 before the first body write,
count bytes, forward the write. -/
def twWrite (s : TrackState) (data : String) : TrackState :=
  let s1 := if !s.wroteHeader then twWriteHeader s 200 else s
  { s1 with bytesWritten := s1.bytesWritten + data.length,
            out := s1.out ++ [WOp.write data] }

/-- `Header().Set` passes through the decorator untouched. -/
def twSetHeader (s : TrackState) (k v : String) : TrackState :=
  { s with out := s.out ++ [WOp.setHeader k v] }

/-- Apply one writer operation through the tracking decorator. -/
def applyOp (s : TrackState) : WOp → TrackState
  | WOp.setHeader k v => twSetHeader s k v
  | WOp.writeHeader c => twWriteHeader s c
  | WOp.write d => twWrite s d

def applyOps (s : TrackState) (ops : List WOp) : TrackState :=
  ops.foldl applyOp s

/-- `http.StatusText` for the codes this core produces. -/
def statusText : Nat → String
  | 200 => "OK"
  | 204 => "No Content"
  | 404 => "Not Found"
  | 405 => "Method Not Allowed"
  | 413 => "Request Entity Too Large"
  | 500 => "Internal Server Error"
  | _ => ""

/-- `http.Error(w, msg, code)`: plain-text headers, the status, then the
message with a trailing newline. -/
def httpError (s : TrackState) (msg : String) (code : Nat) : TrackState :=
  applyOps s
    [WOp.setHeader "Content-Type" "text/plain; charset=utf-8",
     WOp.setHeader "X-Content-Type-Options" "nosniff",
     WOp.writeHeader code,
     WOp.write (msg ++ "\n")]

/-- An observability event (`event.Event`): type, message, optional data
map.  `Data` is `any` in the source; the values this core attaches are
modelled as strings. -/
structure Event where
  type : String
  message : String
  data : Option (GoMap String)
deriving Repr, DecidableEq

/-- The event `panicRecovery` emits (part_001: `EventPanic`, message with
the recovered value, data `{"panic": err}`). -/
def panicEvent (v : String) : Event :=
  { type := "event_panic", message := "Panic recovered: " ++ v,
    data := some [("panic", v)] }

/-- The per-request data of an `*http.Request` that this core reads or
rewrites: method, URL path, raw query, declared `ContentLength` (-1 when
absent), the actual number of body bytes the client will stream, the
installed `MaxBytesReader` limit (none until installed), and the two
context values the dispatcher injects. -/
structure Request where
  method : String
  path : String
  query : List (String × String)
  contentLength : Int
  bodyLen : Nat
  bodyLimit : Option Int
  ctxQuery : Option (List (String × String))
  ctxParams : Option (GoMap String)

/-- Reading the request body to completion through the (optional)
`http.MaxBytesReader`: reads past the limit fail, a body of at most the
limit (in particular exactly the limit) is delivered intact. -/
def readBody (r : Request) : Except String Nat :=
  match r.bodyLimit with
  | none => Except.ok r.bodyLen
  | some n =>
      if (r.bodyLen : Int) > n then Except.error "http: request body too large"
      else Except.ok r.bodyLen

/-- A handler's observable behaviour on a request: the writer operations it
performs, then optionally a panic. -/
structure HandlerRun where
  ops : List WOp
  panics : Option String
deriving Repr, DecidableEq

/-- Model of `http.Handler`. -/
abbrev MHandler := Request → HandlerRun

/-- `http.NotFoundHandler()`: `http.Error(w, "404 page not found", 404)`. -/
def notFoundHandler : MHandler := fun _ =>
  { ops := [WOp.setHeader "Content-Type" "text/plain; charset=utf-8",
            WOp.setHeader "X-Content-Type-Options" "nosniff",
            WOp.writeHeader 404, WOp.write "404 page not found\n"],
    panics := none }

/-- `server.Handler`: router, the dispatch-level registered-route index
(path pattern → method set), body limit, not-found handler, query decoder.
The event emitter is implicit: emitted events are returned in the dispatch
result. -/
structure Handler where
  router : BuiltinRouter MHandler
  registeredRoutes : GoMap (GoMap Bool)
  bodyLimit : Int
  notFound : MHandler
  queryDecoder : List (String × String) → List (String × String)

/-- `createRecoverer`'s guard around one handler invocation: perform the
handler's writes through the tracking writer (discarding body writes when
invoked behind the HEAD `discardingWriter`), then, if the handler panicked,
recover: emit the panic event and write the generic 500.  Totality of this
function is the model of "the panic never propagates past the guard". -/
def recovererRun (s : TrackState) (run : HandlerRun) (discard : Bool) :
    TrackState × List Event :=
  let s1 := run.ops.foldl (fun st op =>
    match op with
    | WOp.write d => if discard then st else applyOp st (WOp.write d)
    | _ => applyOp st op) s
  match run.panics with
  | none => (s1, [])
  | some v => (httpError s1 (statusText 500) 500, [panicEvent v])

/-- Leading-character test (`strings.HasPrefix` with a one-character
prefix). -/
def startsWithChar (s : String) (c : Char) : Bool :=
  match s.toList with
  | [] => false
  | c' :: _ => c' = c

/-- Trailing-character test (`strings.HasSuffix` with a one-character
suffix). -/
def endsWithChar (s : String) (c : Char) : Bool :=
  match s.toList.getLast? with
  | none => false
  | some c' => c' = c

/-- `Handler.matchesPattern`: the dispatch handler's own segment comparison
(duplicated from the router on purpose in the source; note it does *not*
special-case the root path the way `splitPath` does, and treats `:`/`{...}`
segments as parameters requiring a non-empty path part). -/
def matchesPattern (pattern path : String) : Bool :=
  let patternParts := splitSlashList (trimSlashes pattern).toList
  let pathParts := splitSlashList (trimSlashes path).toList
  if patternParts.length ≠ pathParts.length then false
  else (patternParts.zip pathParts).all fun pp =>
    if startsWithChar pp.1 ':' || (startsWithChar pp.1 '{' && endsWithChar pp.1 '}')
    then pp.2 ≠ ""
    else pp.1 = pp.2

/-- `Handler.isMethodNotAllowed`: the path is known to the dispatch index
(exactly or via its pattern matcher) for some other method. -/
def isMethodNotAllowed (h : Handler) (req : Request) : Bool :=
  (match mapLookup h.registeredRoutes req.path with
   | some methods => !((mapLookup methods req.method).getD false)
   | none => false)
  || h.registeredRoutes.any fun p =>
      matchesPattern p.1 req.path && !((mapLookup p.2 req.method).getD false)

/-- `Handler.allowedMethods`: the dispatch handler prefers the router's
`MethodsFor` capability; the model's router is the builtin one, which
provides it, so the index-based `stableAllow` fallback is never taken. -/
def allowedMethods (h : Handler) (path : String) : List String :=
  h.router.MethodsFor path

/-- `strings.Join(allow, ", ")`. -/
def joinAllow : List String → String
  | [] => ""
  | [s] => s
  | s :: rest => s ++ ", " ++ joinAllow rest

/-- Decode the query and inject it, and any non-empty params map, into the
request context (the code block duplicated at each invocation site of
`ServeHTTP`). -/
def injectCtx (h : Handler) (req : Request) (params : Params) : Request :=
  let qm := h.queryDecoder req.query
  let req1 := { req with ctxQuery := some qm }
  match params with
  | some ps => if ps.length > 0 then { req1 with ctxParams := some ps } else req1
  | none => req1

/-- The guard's request rewrite: install `http.MaxBytesReader` when a
positive limit is configured. -/
def limitReq (h : Handler) (req : Request) : Request :=
  if h.bodyLimit > 0 then { req with bodyLimit := some h.bodyLimit } else req

/-- Result of a dispatch: the tracking-writer state (downstream trace), the
events emitted, and a panic escaping `ServeHTTP` (possible only from the
unguarded not-found handler). -/
structure ServeResult where
  track : TrackState
  events : List Event
  escaped : Option String
deriving Repr, DecidableEq

/-- The `m == nil` tail of `ServeHTTP`: 405 with `Allow` when the index
knows the path for another method, otherwise the configured not-found
handler (invoked without a panic guard). -/
def serveNoMatch (h : Handler) (req : Request) (tw : TrackState) : ServeResult :=
  if isMethodNotAllowed h req then
    let allow := allowedMethods h req.path
    let tw1 := if allow.length > 0 then twSetHeader tw "Allow" (joinAllow allow)
               else tw
    { track := httpError tw1 (statusText 405) 405, events := [], escaped := none }
  else
    let run := h.notFound req
    { track := applyOps tw run.ops, events := [], escaped := run.panics }

/-- `ServeHTTP` from the router match on: normal match, HEAD fallback, or
the no-match tail. -/
def serveCont (h : Handler) (req : Request) (tw : TrackState) : ServeResult :=
  match h.router.Match req.method req.path with
  | some m =>
      let r' := injectCtx h req m.params
      let p := recovererRun tw (m.handler r') false
      { track := p.1, events := p.2, escaped := none }
  | none =>
      if req.method = "HEAD" then
        match h.router.Match "GET" req.path with
        | some m2 =>
            let r2 := injectCtx h { req with method := "GET" } m2.params
            let p := recovererRun tw (m2.handler r2) true
            { track := p.1, events := p.2, escaped := none }
        | none => serveNoMatch h req tw
      else serveNoMatch h req tw

/-- The OPTIONS branch of `ServeHTTP` followed by the rest of the pipeline
(body limiting has already been applied to `req`). -/
def serveOptions (h : Handler) (req : Request) (tw : TrackState) : ServeResult :=
  if req.method = "OPTIONS" then
    match h.router.Match req.method req.path with
    | some m =>
        let r' := injectCtx h req m.params
        let p := recovererRun tw (m.handler r') false
        { track := p.1, events := p.2, escaped := none }
    | none =>
        let allow := allowedMethods h req.path
        if allow.length > 0 then
          { track := twWriteHeader (twSetHeader tw "Allow" (joinAllow allow)) 204,
            events := [], escaped := none }
        else serveCont h req tw
  else serveCont h req tw

/-- `Handler.ServeHTTP` (part_001): wrap the sink, enforce the declared
body limit, install the reading limiter, then OPTIONS synthesis, HEAD
fallback, normal dispatch. -/
def ServeHTTP (h : Handler) (req0 : Request) : ServeResult :=
  let tw := initTrack
  if h.bodyLimit > 0 ∧ req0.contentLength > h.bodyLimit then
    { track := httpError tw "Request body too large" 413, events := [],
      escaped := none }
  else
    serveOptions h (limitReq h req0) tw

/-- Status actually transmitted downstream: the first forwarded
`WriteHeader`. -/
def statusOf (t : TrackState) : Option Nat :=
  t.out.findSome? fun op =>
    match op with
    | WOp.writeHeader c => some c
    | _ => none

/-- Effective HTTP status: an untouched sink yields the server's implicit
200 when the handler returns. -/
def respStatus (t : TrackState) : Nat := (statusOf t).getD 200

/-- Transmitted body: the forwarded body writes, concatenated. -/
def bodyOf (t : TrackState) : String :=
  t.out.foldl (fun acc op =>
    match op with
    | WOp.write d => acc ++ d
    | _ => acc) ""

/-- Response headers: sets performed before the status was committed
(net/http snapshots headers at the first `WriteHeader`; with none forwarded,
all sets count). -/
def headersOf (t : TrackState) : GoMap String :=
  (t.out.takeWhile fun op =>
    match op with
    | WOp.writeHeader _ => false
    | _ => true).foldl
    (fun hm op =>
      match op with
      | WOp.setHeader k v => mapSet hm k v
      | _ => hm) []

/-- All statuses forwarded downstream, in order. -/
def forwardedStatuses (t : TrackState) : List Nat :=
  t.out.filterMap fun op =>
    match op with
    | WOp.writeHeader c => some c
    | _ => none

/-- The status a well-behaved sink would commit for an operation sequence:
the first explicit `WriteHeader`'s code, or 200 at the first body write. -/
def firstStatus : List WOp → Option Nat
  | [] => none
  | WOp.setHeader _ _ :: rest => firstStatus rest
  | WOp.writeHeader c :: _ => some c
  | WOp.write _ :: _ => some 200

/-- The downstream trace the tracking writer produces for an operation
sequence, given whether a status is already committed. -/
def emitTrace : List WOp → Bool → List WOp
  | [], _ => []
  | WOp.setHeader k v :: rest, f => WOp.setHeader k v :: emitTrace rest f
  | WOp.writeHeader c :: rest, f =>
      if f then emitTrace rest f else WOp.writeHeader c :: emitTrace rest true
  | WOp.write d :: rest, f =>
      if f then WOp.write d :: emitTrace rest f
      else WOp.writeHeader 200 :: WOp.write d :: emitTrace rest true

/-- Statuses appearing in a trace. -/
def traceStatuses (l : List WOp) : List Nat :=
  l.filterMap fun op =>
    match op with
    | WOp.writeHeader c => some c
    | _ => none

/-!
## Concrete handlers and requests for witnesses and counterexamples
-/

/-- A well-behaved handler: a header, an explicit 201, a body. -/
def okHandler : MHandler := fun _ =>
  { ops := [WOp.setHeader "X-Ok" "1", WOp.writeHeader 201, WOp.write "hello"],
    panics := none }

/-- A handler that panics with the value "boom" before writing anything. -/
def boomHandler : MHandler := fun _ => { ops := [], panics := some "boom" }

/-- A handler that writes a body byte and then attempts a 500. -/
def lateStatusHandler : MHandler := fun _ =>
  { ops := [WOp.write "x", WOp.writeHeader 500], panics := none }

/-- A request with the given method and path and no body. -/
def mkReq (m p : String) : Request :=
  { method := m, path := p, query := [], contentLength := 0, bodyLen := 0,
    bodyLimit := none, ctxQuery := none, ctxParams := none }

/-- Dispatch handler with GET `/a` → `okHandler`, no body limit. -/
def hA : Handler :=
  { router := (NewBuiltinRouter MHandler).Register "GET" "/a" (some okHandler),
    registeredRoutes := [("/a", [("GET", true)])],
    bodyLimit := 0, notFound := notFoundHandler, queryDecoder := fun q => q }

/-- `hA` with a 5-byte body limit. -/
def hLim : Handler := { hA with bodyLimit := 5 }

/-- Dispatch handler with GET `/boom` → `boomHandler`. -/
def hBoom : Handler :=
  { router := (NewBuiltinRouter MHandler).Register "GET" "/boom" (some boomHandler),
    registeredRoutes := [("/boom", [("GET", true)])],
    bodyLimit := 0, notFound := notFoundHandler, queryDecoder := fun q => q }

/-- Dispatch handler with GET `/r` → `lateStatusHandler`. -/
def hLate : Handler :=
  { router := (NewBuiltinRouter MHandler).Register "GET" "/r" (some lateStatusHandler),
    registeredRoutes := [("/r", [("GET", true)])],
    bodyLimit := 0, notFound := notFoundHandler, queryDecoder := fun q => q }

/-- The handler's operations with body writes removed (what the
`discardingWriter` lets through). -/
def dropWrites (ops : List WOp) : List WOp :=
  ops.filter fun op =>
    match op with
    | WOp.write _ => false
    | _ => true

/-- The handler commits its status (if any) before writing any body byte:
no `write` precedes the first `writeHeader`. -/
def noWriteBeforeStatus : List WOp → Bool
  | [] => true
  | WOp.setHeader _ _ :: rest => noWriteBeforeStatus rest
  | WOp.writeHeader _ :: _ => true
  | WOp.write _ :: _ => false

/-- The header-collecting prefix of a trace: everything before the first
forwarded status. -/
def hdrPrefix (l : List WOp) : List WOp :=
  l.takeWhile fun op =>
    match op with
    | WOp.writeHeader _ => false
    | _ => true

/-- Dispatch handler with an explicitly registered OPTIONS route. -/
def hOpt : Handler :=
  { router := (NewBuiltinRouter MHandler).Register "OPTIONS" "/o" (some okHandler),
    registeredRoutes := [("/o", [("OPTIONS", true)])],
    bodyLimit := 0, notFound := notFoundHandler, queryDecoder := fun q => q }

/-!
## Association-list (Go map) lemmas
-/

theorem mapLookup_mapSet_self {α : Type} (m : GoMap α) (k : String) (v : α) :
    mapLookup (mapSet m k v) k = some v := by
  induction m with
  | nil => simp [mapSet, mapLookup]
  | cons p rest ih =>
      obtain ⟨k', v'⟩ := p
      by_cases h : k' = k
      · simp [mapSet, mapLookup, h]
      · simp [mapSet, mapLookup, h, ih]

theorem mapLookup_mapSet_ne {α : Type} (m : GoMap α) (k k' : String) (v : α)
    (h : k' ≠ k) : mapLookup (mapSet m k v) k' = mapLookup m k' := by
  have h' : ¬ (k = k') := fun hh => h hh.symm
  induction m with
  | nil => simp [mapSet, mapLookup, h']
  | cons p rest ih =>
      obtain ⟨k₀, v₀⟩ := p
      by_cases hk : k₀ = k
      · subst hk
        have hne : ¬ (k₀ = k') := fun hh => h hh.symm
        simp [mapSet, mapLookup, hne, h']
      · by_cases hk' : k₀ = k'
        · subst hk'
          simp [mapSet, mapLookup, hk]
        · simp [mapSet, mapLookup, hk, hk', ih]

theorem mapLookup_isSome_iff {α : Type} (m : GoMap α) (k : String) :
    (mapLookup m k).isSome = true ↔ ∃ v, (k, v) ∈ m := by
  induction m with
  | nil => simp [mapLookup]
  | cons p rest ih =>
      obtain ⟨k', v'⟩ := p
      by_cases h : k' = k
      · subst h; simp [mapLookup]
      · have h' : ¬ (k = k') := fun hh => h hh.symm
        simp [mapLookup, h, ih, h', Prod.ext_iff]

/-!
## `matchGo` versus the declarative predicates
-/

theorem matchGo_isSome_iff (segs : List Segment) (parts : List String)
    (acc : GoMap String) :
    (matchGo segs parts acc).isSome = true ↔
      segs.length = parts.length ∧ ∀ p ∈ segs.zip parts, SegMatches p.1 p.2 := by
  induction segs generalizing parts acc with
  | nil =>
      cases parts with
      | nil => simp [matchGo]
      | cons pp parts' => simp [matchGo]
  | cons sg segs' ih =>
      cases parts with
      | nil => simp [matchGo]
      | cons pp parts' =>
          by_cases hp : sg.isParam = true
          · by_cases he : pp = ""
            · subst he
              simp [matchGo, hp, SegMatches]
            · simp [matchGo, hp, he, ih, SegMatches]
          · have hp' : sg.isParam = false := by
              cases h : sg.isParam
              · rfl
              · exact absurd h hp
            by_cases hl : sg.lit = pp
            · simp [matchGo, hp', hl, ih, SegMatches]
            · simp [matchGo, hp', hl, SegMatches]

theorem matchSegs_isSome_iff (segs : List Segment) (path : String) :
    (matchSegs segs path).isSome = true ↔ Qualifies segs path := by
  unfold matchSegs Qualifies
  by_cases h : (splitPath path).length = segs.length
  · rw [if_pos h, matchGo_isSome_iff]
    constructor
    · rintro ⟨_, h2⟩; exact ⟨h, h2⟩
    · rintro ⟨_, h2⟩; exact ⟨h.symm, h2⟩
  · rw [if_neg h]
    simp only [Option.isSome_none, Bool.false_eq_true, false_iff]
    rintro ⟨h1, _⟩; exact h h1

theorem matchGo_lookup_frame (segs : List Segment) (parts : List String)
    (acc ps : GoMap String) (k : String)
    (h : matchGo segs parts acc = some ps)
    (hk : k ∉ paramNames segs) :
    mapLookup ps k = mapLookup acc k := by
  induction segs generalizing parts acc with
  | nil =>
      cases parts with
      | nil => simp [matchGo] at h; subst h; rfl
      | cons pp parts' => simp [matchGo] at h
  | cons sg segs' ih =>
      cases parts with
      | nil => simp [matchGo] at h
      | cons pp parts' =>
          by_cases hp : sg.isParam = true
          · by_cases he : pp = ""
            · simp [matchGo, hp, he] at h
            · simp only [matchGo, hp, if_true, he, if_false] at h
              have hk' : k ∉ paramNames segs' := by
                intro hmem
                exact hk (by simp [paramNames, hp] at hk ⊢; exact Or.inr (by
                  simpa [paramNames] using hmem))
              have hne : k ≠ sg.name := by
                intro hh
                exact hk (by simp [paramNames, hp, hh])
              rw [ih parts' (mapSet acc sg.name pp) h hk']
              exact mapLookup_mapSet_ne acc sg.name k pp hne
          · have hp' : sg.isParam = false := by
              cases hb : sg.isParam
              · rfl
              · exact absurd hb hp
            by_cases hl : sg.lit = pp
            · simp only [matchGo, hp', Bool.false_eq_true, if_false, hl,
                if_true] at h
              have hk' : k ∉ paramNames segs' := by
                intro hmem
                exact hk (by simpa [paramNames, hp'] using hmem)
              exact ih parts' acc h hk'
            · simp [matchGo, hp', hl] at h

theorem matchGo_binds (segs : List Segment) (parts : List String)
    (acc ps : GoMap String)
    (h : matchGo segs parts acc = some ps)
    (hnd : (paramNames segs).Nodup) :
    ∀ p ∈ segs.zip parts, p.1.isParam = true →
      mapLookup ps p.1.name = some p.2 := by
  induction segs generalizing parts acc with
  | nil => intro p hp; simp at hp
  | cons sg segs' ih =>
      cases parts with
      | nil => simp [matchGo] at h
      | cons pp parts' =>
          intro p hmem hpar
          by_cases hp : sg.isParam = true
          · by_cases he : pp = ""
            · simp [matchGo, hp, he] at h
            · simp only [matchGo, hp, if_true, he, if_false] at h
              have hnd' : (paramNames segs').Nodup := by
                have : paramNames (sg :: segs') = sg.name :: paramNames segs' := by
                  simp [paramNames, hp]
                rw [this] at hnd
                exact hnd.of_cons
              have hnotin : sg.name ∉ paramNames segs' := by
                have : paramNames (sg :: segs') = sg.name :: paramNames segs' := by
                  simp [paramNames, hp]
                rw [this] at hnd
                exact (List.nodup_cons.mp hnd).1
              rcases List.mem_cons.mp (by simpa using hmem) with hhd | htl
              · subst hhd
                rw [matchGo_lookup_frame segs' parts' _ ps sg.name h hnotin]
                exact mapLookup_mapSet_self acc sg.name pp
              · exact ih parts' (mapSet acc sg.name pp) h hnd' p htl hpar
          · have hp' : sg.isParam = false := by
              cases hb : sg.isParam
              · rfl
              · exact absurd hb hp
            by_cases hl : sg.lit = pp
            · simp only [matchGo, hp', Bool.false_eq_true, if_false, hl,
                if_true] at h
              have hnd' : (paramNames segs').Nodup := by
                have : paramNames (sg :: segs') = paramNames segs' := by
                  simp [paramNames, hp']
                rwa [this] at hnd
              rcases List.mem_cons.mp (by simpa using hmem) with hhd | htl
              · subst hhd; rw [hp'] at hpar; exact absurd hpar (by simp)
              · exact ih parts' acc h hnd' p htl hpar
            · simp [matchGo, hp', hl] at h

/-!
## The parameterized scan of `Match`
-/

theorem probeEntry_eq_none_iff {H : Type} (path : String) (e : RouteEntry H) :
    probeEntry path e = none ↔ ¬ Qualifies e.segs path := by
  rw [← matchSegs_isSome_iff]
  unfold probeEntry
  cases h : matchSegs e.segs path <;> simp [h]

theorem probeEntry_eq_some {H : Type} (path : String) (e : RouteEntry H)
    (m : Matched H) (h : probeEntry path e = some m) :
    Qualifies e.segs path ∧ m.handler = e.h ∧ m.params = matchSegs e.segs path := by
  unfold probeEntry at h
  cases hm : matchSegs e.segs path with
  | none => rw [hm] at h; exact absurd h (by simp)
  | some ps =>
      rw [hm] at h
      have hm' : ({ handler := e.h, params := some ps } : Matched H) = m :=
        Option.some.inj h
      subst hm'
      exact ⟨(matchSegs_isSome_iff e.segs path).mp (by rw [hm]; rfl), rfl, rfl⟩

theorem findSome_probe_none_iff {H : Type} (entries : List (RouteEntry H))
    (path : String) :
    entries.findSome? (probeEntry path) = none ↔
      ∀ e ∈ entries, ¬ Qualifies e.segs path := by
  induction entries with
  | nil => simp
  | cons e rest ih =>
      rw [List.findSome?_cons]
      cases h : probeEntry path e with
      | none =>
          simp only [ih, List.mem_cons]
          constructor
          · intro hall e' he'
            rcases he' with he' | he'
            · subst he'; exact (probeEntry_eq_none_iff path e').mp h
            · exact hall e' he'
          · intro hall e' he'
            exact hall e' (Or.inr he')
      | some m =>
          simp only [reduceCtorEq, false_iff]
          intro hall
          exact hall e (by simp) ((probeEntry_eq_some path e m h).1)

theorem findSome_probe_some {H : Type} (entries : List (RouteEntry H))
    (path : String) (m : Matched H)
    (h : entries.findSome? (probeEntry path) = some m) :
    ∃ pre e post, entries = pre ++ e :: post ∧ Qualifies e.segs path ∧
      (∀ e' ∈ pre, ¬ Qualifies e'.segs path) ∧
      m.handler = e.h ∧ m.params = matchSegs e.segs path := by
  induction entries with
  | nil => simp at h
  | cons e rest ih =>
      rw [List.findSome?_cons] at h
      cases hpe : probeEntry path e with
      | some m' =>
          rw [hpe] at h
          cases h
          obtain ⟨hq, hh, hp⟩ := probeEntry_eq_some path e m hpe
          exact ⟨[], e, rest, by simp, hq, by simp, hh, hp⟩
      | none =>
          rw [hpe] at h
          obtain ⟨pre, e', post, heq, hq, hpre, hh, hp⟩ := ih h
          refine ⟨e :: pre, e', post, by simp [heq], hq, ?_, hh, hp⟩
          intro e'' he''
          rcases List.mem_cons.mp he'' with he'' | he''
          · subst he''; exact (probeEntry_eq_none_iff path e'').mp hpe
          · exact hpre e'' he''

theorem Match_exact_hit {H : Type} (r : BuiltinRouter H) (method path : String)
    (h : H)
    (hx : (mapLookup r.exact method).bind (fun mm => mapLookup mm path) = some h) :
    r.Match method path = some { handler := h, params := some [] } := by
  unfold BuiltinRouter.Match
  cases hm : mapLookup r.exact method with
  | none => rw [hm] at hx; simp at hx
  | some mm =>
      rw [hm] at hx
      simp only [Option.some_bind] at hx
      dsimp only
      rw [hx]

theorem Match_exact_miss {H : Type} (r : BuiltinRouter H) (method path : String)
    (hx : (mapLookup r.exact method).bind (fun mm => mapLookup mm path) = none) :
    r.Match method path =
      ((mapLookup r.param method).getD []).findSome? (probeEntry path) := by
  unfold BuiltinRouter.Match
  cases hm : mapLookup r.exact method with
  | none => rfl
  | some mm =>
      rw [hm] at hx
      simp only [Option.some_bind] at hx
      dsimp only
      rw [hx]

/-- **C1.** `BuiltinRouter.Match` first looks up (method, exact path) in the
exact table and, on a hit, returns that handler with an empty (non-nil)
parameter map; otherwise it scans the method's parameterized entries in
registration order and returns the first entry that qualifies — equal
segment count, every literal segment equal to the corresponding path
segment, every parameter segment bound to a non-empty path segment — with
its bound parameters; if no entry qualifies it returns the `none` sentinel,
not an error.  Registering `/a/:x` then `/a/:y` for one method, a request to
`/a/1` resolves to the first handler. -/
theorem c1_match_algorithm :
    (∀ (r : BuiltinRouter Nat) (method path : String) (h : Nat),
        (mapLookup r.exact method).bind (fun mm => mapLookup mm path) = some h →
        r.Match method path = some { handler := h, params := some [] })
    ∧ (∀ (r : BuiltinRouter Nat) (method path : String),
        (mapLookup r.exact method).bind (fun mm => mapLookup mm path) = none →
        (r.Match method path = none ↔
          ∀ e ∈ (mapLookup r.param method).getD [], ¬ Qualifies e.segs path))
    ∧ (∀ (r : BuiltinRouter Nat) (method path : String) (m : Matched Nat),
        (mapLookup r.exact method).bind (fun mm => mapLookup mm path) = none →
        r.Match method path = some m →
        ∃ pre e post, (mapLookup r.param method).getD [] = pre ++ e :: post
          ∧ Qualifies e.segs path
          ∧ (∀ e' ∈ pre, ¬ Qualifies e'.segs path)
          ∧ m.handler = e.h ∧ m.params = matchSegs e.segs path)
    ∧ (∀ (segs : List Segment) (path : String) (ps : GoMap String),
        matchSegs segs path = some ps → (paramNames segs).Nodup →
        ∀ p ∈ segs.zip (splitPath path), p.1.isParam = true →
          mapLookup ps p.1.name = some p.2)
    ∧ ((((NewBuiltinRouter Nat).Register "GET" "/a/:x" (some 1)).Register
          "GET" "/a/:y" (some 2)).Match "GET" "/a/1"
        = some { handler := 1, params := some [("x", "1")] }) := by
  refine ⟨?_, ?_, ?_, ?_, by decide⟩
  · exact fun r method path h hx => Match_exact_hit r method path h hx
  · intro r method path hx
    rw [Match_exact_miss r method path hx]
    exact findSome_probe_none_iff _ path
  · intro r method path m hx hm
    rw [Match_exact_miss r method path hx] at hm
    exact findSome_probe_some _ path m hm
  · intro segs path ps hms hnd
    unfold matchSegs at hms
    by_cases hl : (splitPath path).length = segs.length
    · rw [if_pos hl] at hms
      exact matchGo_binds segs (splitPath path) [] ps hms hnd
    · rw [if_neg hl] at hms
      exact absurd hms (by simp)

/-- Witness for C1: concrete exact hit, and a concrete no-match. -/
theorem c1_match_algorithm_witness :
    rC1.Match "GET" "/p" = some { handler := 7, params := some [] }
    ∧ rC1.Match "GET" "/zzz" = none := by
  constructor
  · exact c1_match_algorithm.1 rC1 "GET" "/p" 7 (by decide)
  · exact (c1_match_algorithm.2.1 rC1 "GET" "/zzz" (by decide)).mpr (by decide)

/-- **C10.** Whenever `BuiltinRouter.Match` returns a non-`nil` result, its
`Params` map is itself non-nil: an exact hit carries a freshly allocated
empty map and a parameterized hit carries the bound parameters, so callers
never receive a match holding a `nil` parameter mapping. -/
theorem c10_match_params_never_nil {H : Type} (r : BuiltinRouter H)
    (method path : String) (m : Matched H)
    (hm : r.Match method path = some m) : m.params.isSome = true := by
  cases hx : (mapLookup r.exact method).bind (fun mm => mapLookup mm path) with
  | some h =>
      rw [Match_exact_hit r method path h hx] at hm
      cases hm
      rfl
  | none =>
      rw [Match_exact_miss r method path hx] at hm
      obtain ⟨pre, e, post, _, hq, _, _, hp⟩ := findSome_probe_some _ path m hm
      rw [hp]
      exact (matchSegs_isSome_iff e.segs path).mpr hq

/-- Witness for C10 at a concrete parameterized match. -/
theorem c10_match_params_never_nil_witness :
    (({ handler := 8, params := some [("id", "5")] } : Matched Nat)).params.isSome
      = true :=
  c10_match_params_never_nil rC1 "GET" "/q/5"
    { handler := 8, params := some [("id", "5")] } (by decide)

/-!
## Further association-list lemmas, and well-formedness

Go maps cannot hold duplicate keys; `WF` records this inherent property of
the model, which every router reachable through the API preserves.
-/

theorem mapSet_lookup_self {α : Type} (m : GoMap α) (k : String) (v : α)
    (h : mapLookup m k = some v) : mapSet m k v = m := by
  induction m with
  | nil => simp [mapLookup] at h
  | cons p rest ih =>
      obtain ⟨k', v'⟩ := p
      by_cases hk : k' = k
      · subst hk
        simp only [mapLookup, if_pos rfl] at h
        cases h
        simp [mapSet]
      · simp only [mapLookup, if_neg hk] at h
        simp [mapSet, hk, ih h]

theorem mapDelete_lookup_none {α : Type} (m : GoMap α) (k : String)
    (h : mapLookup m k = none) : mapDelete m k = m := by
  induction m with
  | nil => rfl
  | cons p rest ih =>
      obtain ⟨k', v'⟩ := p
      by_cases hk : k' = k
      · subst hk; simp [mapLookup] at h
      · simp only [mapLookup, if_neg hk] at h
        simp [mapDelete, hk, ih h]

theorem mapLookup_mapDelete_ne {α : Type} (m : GoMap α) (k k' : String)
    (h : k' ≠ k) : mapLookup (mapDelete m k) k' = mapLookup m k' := by
  induction m with
  | nil => rfl
  | cons p rest ih =>
      obtain ⟨k₀, v₀⟩ := p
      by_cases hk : k₀ = k
      · subst hk
        have : ¬ (k₀ = k') := fun hh => h hh.symm
        simp [mapDelete, mapLookup, this]
      · simp [mapDelete, mapLookup, hk, ih]

theorem mapLookup_mapDelete_self {α : Type} (m : GoMap α) (k : String)
    (hnd : (m.map Prod.fst).Nodup) : mapLookup (mapDelete m k) k = none := by
  induction m with
  | nil => rfl
  | cons p rest ih =>
      obtain ⟨k₀, v₀⟩ := p
      simp only [List.map_cons, List.nodup_cons] at hnd
      by_cases hk : k₀ = k
      · subst hk
        simp only [mapDelete, if_pos rfl]
        cases hl : mapLookup rest k₀ with
        | none => exact hl
        | some v =>
            exfalso
            have : ∃ v, (k₀, v) ∈ rest := by
              have := (mapLookup_isSome_iff rest k₀).mp (by rw [hl]; rfl)
              exact this
            obtain ⟨v', hv'⟩ := this
            exact hnd.1 (by simpa using List.mem_map_of_mem Prod.fst hv')
      · simp [mapDelete, mapLookup, hk, ih hnd.2]

/-- **C3 counterexample.** Registering the same parameterized pattern twice
for one method leaves two entries with the identical pattern string in the
parameterized list: `Register` contains no replace-in-place branch, so a
given (method, pattern-string) can appear more than once. -/
theorem c3_register_dedup_counterexample :
    ((mapLookup rDup.param "GET").getD []).map (fun e => e.pattern)
      = ["/a/:x", "/a/:x"]
    ∧ ¬ (((mapLookup rDup.param "GET").getD []).map
          (fun e => e.pattern)).Nodup := by
  exact ⟨by decide, by decide⟩

/-- **C3 (amended).** For a non-empty method, a non-empty parameterized
pattern and a non-nil handler, `Register` always appends a fresh entry at
the end of the method's parameterized list — even when an entry with an
identical pattern string is already present, whose handler is never
replaced — and leaves other methods' lists and the exact table untouched.
Consequently a (method, pattern-string) pair may appear several times after
repeated registration. -/
theorem c3_register_always_appends {H : Type} (r : BuiltinRouter H)
    (method pattern : String) (h : H)
    (hm : method ≠ "") (hp : pattern ≠ "") (hpar : hasParam pattern = true) :
    (mapLookup (r.Register method pattern (some h)).param method).getD []
      = ((mapLookup r.param method).getD [])
          ++ [{ pattern := pattern, segs := compile pattern, h := h }]
    ∧ (∀ m', m' ≠ method →
        mapLookup (r.Register method pattern (some h)).param m'
          = mapLookup r.param m')
    ∧ (r.Register method pattern (some h)).exact = r.exact := by
  have hguard : ¬ (method = "" ∨ pattern = "") := by
    rintro (hh | hh)
    exacts [hm hh, hp hh]
  unfold BuiltinRouter.Register
  dsimp only
  rw [if_neg hguard, hpar]
  simp only [Bool.not_true, Bool.false_eq_true, if_false]
  refine ⟨?_, ?_, trivial⟩
  · rw [mapLookup_mapSet_self]
    rfl
  · intro m' hm'
    exact mapLookup_mapSet_ne r.param method m' _ hm'

/-- Witness for the amended C3 at concrete inputs. -/
theorem c3_register_always_appends_witness :
    (mapLookup rDup.param "GET").getD []
      = ((mapLookup (((NewBuiltinRouter Nat).Register "GET" "/a/:x"
            (some 1))).param "GET").getD [])
          ++ [{ pattern := "/a/:x", segs := compile "/a/:x", h := 2 }] :=
  (c3_register_always_appends ((NewBuiltinRouter Nat).Register "GET" "/a/:x" (some 1))
    "GET" "/a/:x" 2 (by decide) (by decide) (by decide)).1

/-- **C9 counterexample.** With `/a/:x` registered twice for GET (which the
actual `Register` permits), a single `Unregister` removes *both* entries —
the source filters out every entry whose pattern equals the argument — so
"removes the first parameterized entry ... leaving all other entries and
their relative order unchanged" is false here: one entry should have
remained. -/
theorem c9_unregister_first_only_counterexample :
    ((mapLookup rDup.param "GET").getD []).length = 2
    ∧ (mapLookup (rDup.Unregister "GET" "/a/:x").param "GET").getD [] = []
    ∧ ((mapLookup (rDup.Unregister "GET" "/a/:x").param "GET").getD []).length
        ≠ 1 := by
  exact ⟨by decide, by decide, by decide⟩

theorem Unregister_noop {H : Type} (r : BuiltinRouter H) (method pattern : String)
    (hex : mapLookup ((mapLookup r.exact method).getD []) pattern = none)
    (hpar : ∀ e ∈ (mapLookup r.param method).getD [], e.pattern ≠ pattern) :
    r.Unregister method pattern = r := by
  unfold BuiltinRouter.Unregister
  dsimp only
  cases hx : mapLookup r.exact method with
  | none =>
      cases hp : mapLookup r.param method with
      | none => simp
      | some entries =>
          rw [hp] at hpar
          simp only [Option.getD_some] at hpar ⊢
          have hfil : entries.filter (fun e => decide (e.pattern ≠ pattern))
              = entries :=
            List.filter_eq_self.mpr (fun e he => by simpa using hpar e he)
          cases entries with
          | nil => simp
          | cons e es =>
              simp only [List.length_cons, gt_iff_lt, Nat.succ_pos, if_true]
              rw [hfil]
              simp only [List.isEmpty_cons, Bool.false_eq_true, if_false]
              rw [mapSet_lookup_self r.param method (e :: es) hp]
  | some mm =>
      dsimp only
      rw [hx] at hex
      simp only [Option.getD_some] at hex
      rw [mapDelete_lookup_none mm pattern hex,
        mapSet_lookup_self r.exact method mm hx]
      cases hp : mapLookup r.param method with
      | none => simp
      | some entries =>
          rw [hp] at hpar
          simp only [Option.getD_some] at hpar ⊢
          have hfil : entries.filter (fun e => decide (e.pattern ≠ pattern))
              = entries :=
            List.filter_eq_self.mpr (fun e he => by simpa using hpar e he)
          cases entries with
          | nil => simp
          | cons e es =>
              simp only [List.length_cons, gt_iff_lt, Nat.succ_pos, if_true]
              rw [hfil]
              simp only [List.isEmpty_cons, Bool.false_eq_true, if_false]
              rw [mapSet_lookup_self r.param method (e :: es) hp]

/-- **C9 (amended).** `Unregister(method, pattern)` removes the
(method, pattern) entry from the exact table if present and removes *every*
parameterized entry whose pattern string equals the argument (in
particular the first), leaving all other entries and their relative order
unchanged (the non-matching entries survive as the same filtered
subsequence); unregistering a never-registered (method, pattern) pair
leaves the router unchanged, and no error is ever reported (`Unregister`
is total). -/
theorem c9_unregister_removes_matching {H : Type} (r : BuiltinRouter H)
    (method pattern : String) (hWF : WF r) :
    (∀ m', mapLookup (r.Unregister method pattern).exact m'
        = if m' = method
          then (mapLookup r.exact method).map (fun mm => mapDelete mm pattern)
          else mapLookup r.exact m')
    ∧ (∀ m', (mapLookup (r.Unregister method pattern).param m').getD []
        = if m' = method
          then ((mapLookup r.param method).getD []).filter
                 (fun e => e.pattern ≠ pattern)
          else (mapLookup r.param m').getD [])
    ∧ ((mapLookup ((mapLookup r.exact method).getD []) pattern = none
        ∧ ∀ e ∈ (mapLookup r.param method).getD [], e.pattern ≠ pattern) →
        r.Unregister method pattern = r) := by
  obtain ⟨hWFe, hWFp⟩ := hWF
  refine ⟨?_, ?_, fun hno => Unregister_noop r method pattern hno.1 hno.2⟩
  · intro m'
    unfold BuiltinRouter.Unregister
    dsimp only
    cases hx : mapLookup r.exact method with
    | none =>
        by_cases hm' : m' = method
        · subst hm'; simp [hx]
        · simp [hm']
    | some mm =>
        dsimp only
        by_cases hm' : m' = method
        · subst hm'
          simp only [if_pos rfl, Option.map_some]
          exact mapLookup_mapSet_self r.exact m' (mapDelete mm pattern)
        · rw [if_neg hm']
          exact mapLookup_mapSet_ne r.exact method m' _ hm'
  · intro m'
    unfold BuiltinRouter.Unregister
    dsimp only
    cases hp : mapLookup r.param method with
    | none =>
        simp only [Option.getD_none, List.length_nil, gt_iff_lt,
          Nat.lt_irrefl, if_false, List.filter_nil]
        by_cases hm' : m' = method
        · subst hm'; simp [hp]
        · simp [hm']
    | some entries =>
        simp only [Option.getD_some]
        cases hent : entries with
        | nil =>
            simp only [List.length_nil, gt_iff_lt, Nat.lt_irrefl, if_false,
              List.filter_nil]
            by_cases hm' : m' = method
            · subst hm'; simp [hp, hent]
            · simp [hm']
        | cons e es =>
            simp only [List.length_cons, gt_iff_lt, Nat.succ_pos, if_true]
            by_cases hdst : ((e :: es).filter
                (fun e => decide (e.pattern ≠ pattern))).isEmpty
            · rw [if_pos hdst]
              rw [List.isEmpty_iff] at hdst
              by_cases hm' : m' = method
              · subst hm'
                rw [if_pos rfl, mapLookup_mapDelete_self r.param m' hWFp,
                  hdst]
                rfl
              · rw [if_neg hm', mapLookup_mapDelete_ne r.param method m' hm']
            · rw [if_neg hdst]
              by_cases hm' : m' = method
              · subst hm'
                rw [if_pos rfl, mapLookup_mapSet_self]
                rfl
              · rw [if_neg hm', mapLookup_mapSet_ne r.param method m' _ hm']

/-- Witness for the amended C9 at concrete inputs: removing `/a/:x` from the
duplicate-registration router deletes both matching entries and a no-op
unregistration returns the router unchanged. -/
theorem c9_unregister_removes_matching_witness :
    (mapLookup (rDup.Unregister "GET" "/a/:x").param "GET").getD []
      = ((mapLookup rDup.param "GET").getD []).filter
          (fun e => e.pattern ≠ "/a/:x")
    ∧ rC1.Unregister "POST" "/nope" = rC1 := by
  constructor
  · have h := (c9_unregister_removes_matching rDup "GET" "/a/:x"
      (by decide)).2.1 "GET"
    rw [h, if_pos rfl]
  · exact (c9_unregister_removes_matching rC1 "POST" "/nope"
      (by decide)).2.2 ⟨by decide, by decide⟩

theorem mem_setInsert (s : List String) (m m' : String) :
    m' ∈ setInsert s m ↔ m' ∈ s ∨ m' = m := by
  unfold setInsert
  by_cases hm : m ∈ s
  · rw [if_pos hm]
    constructor
    · exact Or.inl
    · rintro (h | h)
      · exact h
      · exact h ▸ hm
  · rw [if_neg hm]
    simp

theorem setInsert_nodup (s : List String) (m : String) (h : s.Nodup) :
    (setInsert s m).Nodup := by
  unfold setInsert
  by_cases hm : m ∈ s
  · rwa [if_pos hm]
  · rw [if_neg hm]
    refine List.Nodup.append h (List.nodup_singleton m) ?_
    intro a ha ham
    rw [List.mem_singleton] at ham
    exact hm (ham ▸ ha)

theorem setInsert_ne_nil (s : List String) (m : String) :
    setInsert s m ≠ [] := by
  unfold setInsert
  by_cases hm : m ∈ s
  · rw [if_pos hm]
    intro h
    rw [h] at hm
    exact absurd hm (List.not_mem_nil m)
  · rw [if_neg hm]
    simp

theorem mem_foldl_setInsert {β : Type} (l : List (String × β))
    (f : String × β → Bool) (s0 : List String) (m : String) :
    m ∈ l.foldl (fun s p => if f p then setInsert s p.1 else s) s0 ↔
      m ∈ s0 ∨ ∃ p ∈ l, p.1 = m ∧ f p = true := by
  induction l generalizing s0 with
  | nil => simp
  | cons p l ih =>
      rw [List.foldl_cons]
      by_cases hf : f p = true
      · rw [if_pos hf, ih, mem_setInsert]
        constructor
        · rintro ((h | h) | ⟨q, hq, hq1, hq2⟩)
          · exact Or.inl h
          · exact Or.inr ⟨p, by simp, h.symm, hf⟩
          · exact Or.inr ⟨q, by simp [hq], hq1, hq2⟩
        · rintro (h | ⟨q, hq, hq1, hq2⟩)
          · exact Or.inl (Or.inl h)
          · rcases List.mem_cons.mp hq with hq | hq
            · subst hq; exact Or.inl (Or.inr hq1.symm)
            · exact Or.inr ⟨q, hq, hq1, hq2⟩
      · rw [if_neg hf, ih]
        constructor
        · rintro (h | ⟨q, hq, hq1, hq2⟩)
          · exact Or.inl h
          · exact Or.inr ⟨q, by simp [hq], hq1, hq2⟩
        · rintro (h | ⟨q, hq, hq1, hq2⟩)
          · exact Or.inl h
          · rcases List.mem_cons.mp hq with hq | hq
            · subst hq; exact absurd hq2 hf
            · exact Or.inr ⟨q, hq, hq1, hq2⟩

theorem foldl_setInsert_nodup {β : Type} (l : List (String × β))
    (f : String × β → Bool) (s0 : List String) (h : s0.Nodup) :
    (l.foldl (fun s p => if f p then setInsert s p.1 else s) s0).Nodup := by
  induction l generalizing s0 with
  | nil => exact h
  | cons p l ih =>
      rw [List.foldl_cons]
      by_cases hf : f p = true
      · rw [if_pos hf]; exact ih _ (setInsert_nodup s0 p.1 h)
      · rw [if_neg hf]; exact ih _ h

theorem lexLe_total (x y : List Char) : lexLe x y = true ∨ lexLe y x = true := by
  induction x generalizing y with
  | nil => exact Or.inl rfl
  | cons a as ih =>
      cases y with
      | nil => exact Or.inr rfl
      | cons b bs =>
          rcases lt_trichotomy a b with h | h | h
          · exact Or.inl (by simp [lexLe, h])
          · subst h
            rcases ih bs with hh | hh
            · exact Or.inl (by simp [lexLe, lt_irrefl, hh])
            · exact Or.inr (by simp [lexLe, lt_irrefl, hh])
          · exact Or.inr (by simp [lexLe, h])

theorem lexLe_trans (x y z : List Char) (hxy : lexLe x y = true)
    (hyz : lexLe y z = true) : lexLe x z = true := by
  induction x generalizing y z with
  | nil => rfl
  | cons a as ih =>
      cases y with
      | nil => simp [lexLe] at hxy
      | cons b bs =>
          cases z with
          | nil => simp [lexLe] at hyz
          | cons c cs =>
              simp only [lexLe] at hxy hyz ⊢
              rcases lt_trichotomy a b with hab | hab | hab
              · rw [if_pos hab] at hxy
                rcases lt_trichotomy b c with hbc | hbc | hbc
                · rw [if_pos (lt_trans hab hbc)]
                · subst hbc; rw [if_pos hab]
                · rw [if_neg (not_lt_of_gt hbc), if_pos hbc] at hyz
                  exact absurd hyz (by simp)
              · subst hab
                rw [if_neg (lt_irrefl a), if_neg (lt_irrefl a)] at hxy
                rcases lt_trichotomy a c with hac | hac | hac
                · rw [if_pos hac]
                · subst hac
                  rw [if_neg (lt_irrefl a), if_neg (lt_irrefl a)] at hyz ⊢
                  exact ih bs cs hxy hyz
                · rw [if_neg (not_lt_of_gt hac), if_pos hac] at hyz
                  exact absurd hyz (by simp)
              · rw [if_neg (not_lt_of_gt hab), if_pos hab] at hxy
                exact absurd hxy (by simp)

theorem lexLe_antisymm (x y : List Char) (hxy : lexLe x y = true)
    (hyx : lexLe y x = true) : x = y := by
  induction x generalizing y with
  | nil =>
      cases y with
      | nil => rfl
      | cons b bs => simp [lexLe] at hyx
  | cons a as ih =>
      cases y with
      | nil => simp [lexLe] at hxy
      | cons b bs =>
          simp only [lexLe] at hxy hyx
          rcases lt_trichotomy a b with hab | hab | hab
          · rw [if_neg (not_lt_of_gt hab), if_pos hab] at hyx
            exact absurd hyx (by simp)
          · subst hab
            rw [if_neg (lt_irrefl a), if_neg (lt_irrefl a)] at hxy hyx
            rw [ih bs hxy hyx]
          · rw [if_neg (not_lt_of_gt hab), if_pos hab] at hxy
            exact absurd hxy (by simp)

theorem strLe_antisymm (a b : String) (hab : strLe a b) (hba : strLe b a) :
    a = b := by
  have h := lexLe_antisymm a.toList b.toList hab hba
  cases a with
  | mk da =>
      cases b with
      | mk db => exact congrArg String.mk h

instance : IsTotal String strLe :=
  ⟨fun a b => lexLe_total a.toList b.toList⟩

instance : IsTrans String strLe :=
  ⟨fun a b c => lexLe_trans a.toList b.toList c.toList⟩

theorem idxOf_lt_length (l : List String) (m : String) (h : m ∈ l) :
    idxOf l m < l.length := by
  induction l with
  | nil => exact absurd h (List.not_mem_nil m)
  | cons x xs ih =>
      by_cases hx : x = m
      · simp [idxOf, hx]
      · rcases List.mem_cons.mp h with hh | hh
        · exact absurd hh.symm hx
        · simp only [idxOf, if_neg hx, List.length_cons]
          exact Nat.succ_lt_succ (ih hh)

theorem idxOf_eq_length (l : List String) (m : String) (h : m ∉ l) :
    idxOf l m = l.length := by
  induction l with
  | nil => rfl
  | cons x xs ih =>
      have hx : x ≠ m := fun hh => h (hh ▸ List.mem_cons_self x xs)
      have hxs : m ∉ xs := fun hh => h (List.mem_cons_of_mem x hh)
      simp [idxOf, hx, ih hxs]

theorem idxOf_inj (l : List String) (a b : String) (ha : a ∈ l) (hb : b ∈ l)
    (h : idxOf l a = idxOf l b) : a = b := by
  induction l with
  | nil => exact absurd ha (List.not_mem_nil a)
  | cons x xs ih =>
      by_cases hxa : x = a
      · by_cases hxb : x = b
        · exact hxa ▸ hxb ▸ rfl
        · rw [idxOf, if_pos hxa, idxOf, if_neg hxb] at h
          exact absurd h.symm (Nat.succ_ne_zero _)
      · by_cases hxb : x = b
        · rw [idxOf, if_neg hxa, idxOf, if_pos hxb] at h
          exact absurd h (Nat.succ_ne_zero _)
        · rw [idxOf, if_neg hxa, idxOf, if_neg hxb] at h
          have ha' : a ∈ xs := by
            rcases List.mem_cons.mp ha with hh | hh
            · exact absurd hh.symm hxa
            · exact hh
          have hb' : b ∈ xs := by
            rcases List.mem_cons.mp hb with hh | hh
            · exact absurd hh.symm hxb
            · exact hh
          exact ih ha' hb' (Nat.succ_injective h)

theorem methodRank_lt_of_mem (m : String) (h : m ∈ methodOrder) :
    methodRank m < methodOrder.length :=
  idxOf_lt_length methodOrder m h

theorem methodRank_eq_of_not_mem (m : String) (h : m ∉ methodOrder) :
    methodRank m = methodOrder.length :=
  idxOf_eq_length methodOrder m h

theorem specLt_irrefl (a : String) : ¬ specLt a a := by
  rintro (h | ⟨_, _, h, _⟩)
  · exact lt_irrefl _ h
  · exact h rfl

theorem specLt_asymm (a b : String) (hab : specLt a b) : ¬ specLt b a := by
  rintro (h | ⟨h1, h2, h3, h4⟩)
  · rcases hab with hab | ⟨ha1, ha2, _, _⟩
    · exact lt_irrefl _ (lt_trans hab h)
    · rw [ha1, ha2] at h
      exact lt_irrefl _ h
  · rcases hab with hab | ⟨_, _, hne, hle⟩
    · rw [h1, h2] at hab
      exact lt_irrefl _ hab
    · exact hne (strLe_antisymm a b hle h4)

theorem specLt_total_of_ne (a b : String) (h : a ≠ b) :
    specLt a b ∨ specLt b a := by
  rcases Nat.lt_trichotomy (methodRank a) (methodRank b) with hr | hr | hr
  · exact Or.inl (Or.inl hr)
  · by_cases hma : a ∈ methodOrder
    · by_cases hmb : b ∈ methodOrder
      · exact absurd (idxOf_inj methodOrder a b hma hmb hr) h
      · exact absurd (hr ▸ methodRank_lt_of_mem a hma)
          (by rw [methodRank_eq_of_not_mem b hmb]; exact lt_irrefl _)
    · by_cases hmb : b ∈ methodOrder
      · exfalso
        have hblt := methodRank_lt_of_mem b hmb
        rw [← hr, methodRank_eq_of_not_mem a hma] at hblt
        exact lt_irrefl _ hblt
      · have ha := methodRank_eq_of_not_mem a hma
        have hb := methodRank_eq_of_not_mem b hmb
        rcases lexLe_total a.toList b.toList with hh | hh
        · exact Or.inl (Or.inr ⟨ha, hb, h, hh⟩)
        · exact Or.inr (Or.inr ⟨hb, ha, fun hba => h hba.symm, hh⟩)
  · exact Or.inr (Or.inl hr)

/-- Two duplicate-free lists strictly sorted by `specLt` with the same
members are equal. -/
theorem pairwise_specLt_ext (l₁ : List String) :
    ∀ l₂, l₁.Pairwise specLt → l₂.Pairwise specLt →
      (∀ m, m ∈ l₁ ↔ m ∈ l₂) → l₁ = l₂ := by
  induction l₁ with
  | nil =>
      intro l₂ _ _ hm
      cases l₂ with
      | nil => rfl
      | cons b t₂ => exact absurd ((hm b).mpr (by simp)) (List.not_mem_nil b)
  | cons a t₁ ih =>
      intro l₂ h1 h2 hm
      cases l₂ with
      | nil => exact absurd ((hm a).mp (by simp)) (List.not_mem_nil a)
      | cons b t₂ =>
          rw [List.pairwise_cons] at h1 h2
          have hab : a = b := by
            by_contra hne
            have ha2 : a ∈ b :: t₂ := (hm a).mp (by simp)
            have hb1 : b ∈ a :: t₁ := (hm b).mpr (by simp)
            have hba : specLt b a := by
              rcases List.mem_cons.mp ha2 with hh | hh
              · exact absurd hh hne
              · exact h2.1 a hh
            have hab' : specLt a b := by
              rcases List.mem_cons.mp hb1 with hh | hh
              · exact absurd hh.symm hne
              · exact h1.1 b hh
            exact specLt_asymm a b hab' hba
          subst hab
          have ht : ∀ m, m ∈ t₁ ↔ m ∈ t₂ := by
            intro m
            constructor
            · intro hmem
              have hne : m ≠ a := fun hh =>
                specLt_irrefl a (hh ▸ h1.1 m hmem)
              rcases List.mem_cons.mp ((hm m).mp (List.mem_cons_of_mem a hmem))
                with hh | hh
              · exact absurd hh hne
              · exact hh
            · intro hmem
              have hne : m ≠ a := fun hh =>
                specLt_irrefl a (hh ▸ h2.1 m hmem)
              rcases List.mem_cons.mp ((hm m).mpr (List.mem_cons_of_mem a hmem))
                with hh | hh
              · exact absurd hh hne
              · exact hh
          rw [ih t₂ h1.2 h2.2 ht]

theorem MethodsFor_eq {H : Type} (r : BuiltinRouter H) (path : String) :
    r.MethodsFor path =
      (methodOrder.filter (· ∈ augSet r path)) ++
        sortStrings ((augSet r path).filter (· ∉ methodOrder)) := rfl

theorem mem_rawSet {H : Type} (r : BuiltinRouter H) (path m : String) :
    m ∈ rawSet r path ↔ allows r path m := by
  unfold rawSet allows
  rw [mem_foldl_setInsert, mem_foldl_setInsert]
  constructor
  · rintro ((h | ⟨p, hp, hp1, hp2⟩) | ⟨p, hp, hp1, hp2⟩)
    · exact absurd h (List.not_mem_nil m)
    · exact Or.inl ⟨p, hp, hp1, hp2⟩
    · rw [List.any_eq_true] at hp2
      obtain ⟨e, he, he2⟩ := hp2
      exact Or.inr ⟨p, hp, hp1, e, he,
        (matchSegs_isSome_iff e.segs path).mp he2⟩
  · rintro (⟨p, hp, hp1, hp2⟩ | ⟨p, hp, hp1, e, he, he2⟩)
    · exact Or.inl (Or.inr ⟨p, hp, hp1, hp2⟩)
    · refine Or.inr ⟨p, hp, hp1, ?_⟩
      rw [List.any_eq_true]
      exact ⟨e, he, (matchSegs_isSome_iff e.segs path).mpr he2⟩

theorem rawSet_nodup {H : Type} (r : BuiltinRouter H) (path : String) :
    (rawSet r path).Nodup := by
  unfold rawSet
  exact foldl_setInsert_nodup _ _ _ (foldl_setInsert_nodup _ _ _ List.nodup_nil)

theorem rawSet_nil_iff {H : Type} (r : BuiltinRouter H) (path : String) :
    rawSet r path = [] ↔ ∀ m, ¬ allows r path m := by
  rw [List.eq_nil_iff_forall_not_mem]
  constructor
  · intro h m hm
    exact h m ((mem_rawSet r path m).mpr hm)
  · intro h m hm
    exact h m ((mem_rawSet r path m).mp hm)

theorem mem_augSet {H : Type} (r : BuiltinRouter H) (path m : String) :
    m ∈ augSet r path ↔
      allows r path m ∨ (m = "HEAD" ∧ allows r path "GET")
      ∨ (m = "OPTIONS" ∧ ∃ m', allows r path m') := by
  unfold augSet
  dsimp only
  by_cases hGET : "GET" ∈ rawSet r path
  · have hGETa : allows r path "GET" := (mem_rawSet r path "GET").mp hGET
    rw [if_pos hGET]
    have hne : (setInsert (rawSet r path) "HEAD").isEmpty ≠ true := by
      intro hh
      exact setInsert_ne_nil _ _ (List.isEmpty_iff.mp hh)
    rw [if_neg hne, mem_setInsert, mem_setInsert, mem_rawSet]
    constructor
    · rintro ((h | h) | h)
      · exact Or.inl h
      · exact Or.inr (Or.inl ⟨h, hGETa⟩)
      · exact Or.inr (Or.inr ⟨h, "GET", hGETa⟩)
    · rintro (h | ⟨h, _⟩ | ⟨h, _⟩)
      · exact Or.inl (Or.inl h)
      · exact Or.inl (Or.inr h)
      · exact Or.inr h
  · have hGETa : ¬ allows r path "GET" :=
      fun h => hGET ((mem_rawSet r path "GET").mpr h)
    rw [if_neg hGET]
    cases hnil : rawSet r path with
    | nil =>
        have hall := (rawSet_nil_iff r path).mp hnil
        simp only [List.isEmpty_nil, if_true]
        constructor
        · intro h
          exact absurd h (List.not_mem_nil m)
        · rintro (h | ⟨_, h⟩ | ⟨_, m', h⟩)
          · exact absurd h (hall m)
          · exact absurd h hGETa
          · exact absurd h (hall m')
    | cons x xs =>
        have hne : (x :: xs).isEmpty ≠ true := by simp
        rw [if_neg hne, mem_setInsert, ← hnil, mem_rawSet]
        constructor
        · rintro (h | h)
          · exact Or.inl h
          · refine Or.inr (Or.inr ⟨h, x, ?_⟩)
            exact (mem_rawSet r path x).mp (by rw [hnil]; simp)
        · rintro (h | ⟨hm, h⟩ | ⟨hm, _⟩)
          · exact Or.inl h
          · exact absurd h hGETa
          · exact Or.inr hm

theorem augSet_nodup {H : Type} (r : BuiltinRouter H) (path : String) :
    (augSet r path).Nodup := by
  unfold augSet
  dsimp only
  by_cases hGET : "GET" ∈ rawSet r path
  · rw [if_pos hGET]
    by_cases he : (setInsert (rawSet r path) "HEAD").isEmpty = true
    · rw [if_pos he]
      exact setInsert_nodup _ _ (rawSet_nodup r path)
    · rw [if_neg he]
      exact setInsert_nodup _ _ (setInsert_nodup _ _ (rawSet_nodup r path))
  · rw [if_neg hGET]
    by_cases he : (rawSet r path).isEmpty = true
    · rw [if_pos he]
      exact rawSet_nodup r path
    · rw [if_neg he]
      exact setInsert_nodup _ _ (rawSet_nodup r path)

theorem mem_MethodsFor {H : Type} (r : BuiltinRouter H) (path m : String) :
    m ∈ r.MethodsFor path ↔ m ∈ augSet r path := by
  rw [MethodsFor_eq, List.mem_append, List.mem_filter]
  have hperm := List.perm_insertionSort strLe ((augSet r path).filter
    (fun m => decide (m ∉ methodOrder)))
  rw [show sortStrings ((augSet r path).filter (· ∉ methodOrder))
      = List.insertionSort strLe ((augSet r path).filter
          (fun m => decide (m ∉ methodOrder))) from rfl]
  rw [hperm.mem_iff, List.mem_filter]
  constructor
  · rintro (⟨_, h⟩ | ⟨h, _⟩)
    · exact of_decide_eq_true h
    · exact h
  · intro h
    by_cases hm : m ∈ methodOrder
    · exact Or.inl ⟨hm, decide_eq_true h⟩
    · exact Or.inr ⟨h, decide_eq_true hm⟩

theorem MethodsFor_pairwise {H : Type} (r : BuiltinRouter H) (path : String) :
    (r.MethodsFor path).Pairwise specLt := by
  rw [MethodsFor_eq, List.pairwise_append]
  refine ⟨?_, ?_, ?_⟩
  · exact List.Pairwise.filter _ (by decide : methodOrder.Pairwise specLt)
  · have hsorted : List.Sorted strLe (List.insertionSort strLe
        ((augSet r path).filter (fun m => decide (m ∉ methodOrder)))) :=
      List.sorted_insertionSort strLe _
    have hnodup : (List.insertionSort strLe
        ((augSet r path).filter (fun m => decide (m ∉ methodOrder)))).Nodup :=
      ((List.perm_insertionSort strLe _).nodup_iff).mpr
        ((augSet_nodup r path).filter _)
    have hboth := List.Pairwise.and hsorted hnodup
    refine hboth.imp_of_mem ?_
    intro a b ha hb hab
    have ha' : a ∉ methodOrder := by
      have := (List.mem_filter.mp
        ((List.perm_insertionSort strLe _).subset ha)).2
      exact of_decide_eq_true this
    have hb' : b ∉ methodOrder := by
      have := (List.mem_filter.mp
        ((List.perm_insertionSort strLe _).subset hb)).2
      exact of_decide_eq_true this
    exact Or.inr ⟨methodRank_eq_of_not_mem a ha',
      methodRank_eq_of_not_mem b hb', hab.2, hab.1⟩
  · intro a ha b hb
    have ha' : a ∈ methodOrder := (List.mem_filter.mp ha).1
    have hb' : b ∉ methodOrder := by
      have := (List.mem_filter.mp
        ((List.perm_insertionSort strLe _).subset hb)).2
      exact of_decide_eq_true this
    exact Or.inl (by
      rw [methodRank_eq_of_not_mem b hb']
      exact methodRank_lt_of_mem a ha')

/-- **C2.** `MethodsFor` returns exactly the union of methods whose exact or
parameterized patterns match the concrete path, augmented by HEAD whenever
GET is present and by OPTIONS whenever the union is non-empty; the output is
strictly ordered by the fixed sequence OPTIONS, GET, HEAD, POST, PUT, PATCH,
DELETE followed by the remaining custom methods lexicographically (`specLt`);
the result depends only on which methods match (hence not on registration
order — GET and POST on `/x` yield exactly ["OPTIONS","GET","HEAD","POST"]
for either registration order); an empty union yields the empty sequence.
(The Go-level nil/empty slice distinction collapses in the list model; the
source allocates a non-nil empty slice.) -/
theorem c2_methodsfor_spec :
    (∀ (r : BuiltinRouter Nat) (path m : String),
        m ∈ r.MethodsFor path ↔
          allows r path m ∨ (m = "HEAD" ∧ allows r path "GET")
          ∨ (m = "OPTIONS" ∧ ∃ m', allows r path m'))
    ∧ (∀ (r : BuiltinRouter Nat) (path : String),
        (r.MethodsFor path).Pairwise specLt)
    ∧ (∀ (r₁ r₂ : BuiltinRouter Nat) (path : String),
        (∀ m, allows r₁ path m ↔ allows r₂ path m) →
        r₁.MethodsFor path = r₂.MethodsFor path)
    ∧ (rGP.MethodsFor "/x" = ["OPTIONS", "GET", "HEAD", "POST"]
        ∧ rPG.MethodsFor "/x" = ["OPTIONS", "GET", "HEAD", "POST"])
    ∧ (∀ (r : BuiltinRouter Nat) (path : String),
        (∀ m, ¬ allows r path m) → r.MethodsFor path = []) := by
  refine ⟨?_, ?_, ?_, ⟨by decide, by decide⟩, ?_⟩
  · intro r path m
    rw [mem_MethodsFor, mem_augSet]
  · exact fun r path => MethodsFor_pairwise r path
  · intro r₁ r₂ path hiff
    refine pairwise_specLt_ext _ _ (MethodsFor_pairwise r₁ path)
      (MethodsFor_pairwise r₂ path) ?_
    intro m
    rw [mem_MethodsFor, mem_augSet, mem_MethodsFor, mem_augSet]
    constructor
    · rintro (h | ⟨hm, h⟩ | ⟨hm, m', h⟩)
      · exact Or.inl ((hiff m).mp h)
      · exact Or.inr (Or.inl ⟨hm, (hiff "GET").mp h⟩)
      · exact Or.inr (Or.inr ⟨hm, m', (hiff m').mp h⟩)
    · rintro (h | ⟨hm, h⟩ | ⟨hm, m', h⟩)
      · exact Or.inl ((hiff m).mpr h)
      · exact Or.inr (Or.inl ⟨hm, (hiff "GET").mpr h⟩)
      · exact Or.inr (Or.inr ⟨hm, m', (hiff m').mpr h⟩)
  · intro r path hnone
    rw [List.eq_nil_iff_forall_not_mem]
    intro m hm
    rw [mem_MethodsFor, mem_augSet] at hm
    rcases hm with h | ⟨_, h⟩ | ⟨_, m', h⟩
    · exact hnone m h
    · exact hnone "GET" h
    · exact hnone m' h

/-- Witness for C2: order independence and the empty case at concrete
inputs. -/
theorem c2_methodsfor_spec_witness :
    rGP.MethodsFor "/x" = rPG.MethodsFor "/x"
    ∧ rGP.MethodsFor "/none" = [] := by
  constructor
  · refine c2_methodsfor_spec.2.2.1 rGP rPG "/x" ?_
    intro m
    rw [← mem_rawSet, ← mem_rawSet,
      show rawSet rGP "/x" = ["GET", "POST"] from by decide,
      show rawSet rPG "/x" = ["POST", "GET"] from by decide]
    simp only [List.mem_cons, List.mem_singleton, List.not_mem_nil, or_false]
    exact Or.comm
  · refine c2_methodsfor_spec.2.2.2.2 rGP "/none" ?_
    intro m hm
    rw [← mem_rawSet, show rawSet rGP "/none" = [] from by decide] at hm
    exact absurd hm (List.not_mem_nil m)

theorem applyOps_out (ops : List WOp) (s : TrackState) :
    (applyOps s ops).out = s.out ++ emitTrace ops s.wroteHeader := by
  induction ops generalizing s with
  | nil => simp [applyOps, emitTrace]
  | cons op rest ih =>
      cases op with
      | setHeader k v =>
          rw [show applyOps s (WOp.setHeader k v :: rest)
              = applyOps (twSetHeader s k v) rest from rfl, ih]
          simp [twSetHeader, emitTrace]
      | writeHeader c =>
          rw [show applyOps s (WOp.writeHeader c :: rest)
              = applyOps (twWriteHeader s c) rest from rfl, ih]
          unfold twWriteHeader
          cases hf : s.wroteHeader with
          | true => simp [emitTrace, hf]
          | false => simp [emitTrace, hf]
      | write d =>
          rw [show applyOps s (WOp.write d :: rest)
              = applyOps (twWrite s d) rest from rfl, ih]
          unfold twWrite twWriteHeader
          cases hf : s.wroteHeader with
          | true => simp [emitTrace, hf]
          | false => simp [emitTrace, hf]

theorem forwardedStatuses_eq (t : TrackState) :
    forwardedStatuses t = traceStatuses t.out := rfl

theorem traceStatuses_emitTrace_true (ops : List WOp) :
    traceStatuses (emitTrace ops true) = [] := by
  induction ops with
  | nil => rfl
  | cons op rest ih =>
      cases op <;> simp [emitTrace, traceStatuses, List.filterMap_cons] at ih ⊢
        <;> exact ih

theorem traceStatuses_emitTrace_false (ops : List WOp) :
    traceStatuses (emitTrace ops false) = (firstStatus ops).toList := by
  induction ops with
  | nil => rfl
  | cons op rest ih =>
      cases op with
      | setHeader k v =>
          simpa [emitTrace, traceStatuses, List.filterMap_cons, firstStatus]
            using ih
      | writeHeader c =>
          rw [show emitTrace (WOp.writeHeader c :: rest) false
              = WOp.writeHeader c :: emitTrace rest true from rfl,
            show traceStatuses (WOp.writeHeader c :: emitTrace rest true)
              = c :: traceStatuses (emitTrace rest true) from rfl,
            traceStatuses_emitTrace_true]
          rfl
      | write d =>
          rw [show emitTrace (WOp.write d :: rest) false
              = WOp.writeHeader 200 :: WOp.write d :: emitTrace rest true from rfl,
            show traceStatuses (WOp.writeHeader 200 :: WOp.write d ::
                emitTrace rest true)
              = 200 :: traceStatuses (emitTrace rest true) from rfl,
            traceStatuses_emitTrace_true]
          rfl

/-- **C6.** Through the tracking response writer, at most one status code is
ever forwarded downstream for any sequence of `WriteHeader`/`Write` calls:
exactly the first `WriteHeader`'s code, or an implicit 200 inserted before
the first body write when no status was set, and nothing when neither
occurs; every later `WriteHeader` — e.g. a conflicting status attempted by
the panic guard after partial output — is silently dropped. -/
theorem c6_single_status_forwarded :
    (∀ ops : List WOp,
        forwardedStatuses (applyOps initTrack ops) = (firstStatus ops).toList)
    ∧ (∀ ops : List WOp,
        (forwardedStatuses (applyOps initTrack ops)).length ≤ 1)
    ∧ (∀ (pre : List WOp) (c : Nat) (post : List WOp),
        firstStatus pre ≠ none →
        forwardedStatuses (applyOps initTrack (pre ++ WOp.writeHeader c :: post))
          = (firstStatus pre).toList) := by
  have hmain : ∀ ops : List WOp,
      forwardedStatuses (applyOps initTrack ops) = (firstStatus ops).toList := by
    intro ops
    rw [forwardedStatuses_eq, applyOps_out]
    simp [initTrack, traceStatuses_emitTrace_false]
  have happ : ∀ (l1 l2 : List WOp), firstStatus l1 ≠ none →
      firstStatus (l1 ++ l2) = firstStatus l1 := by
    intro l1 l2 h
    induction l1 with
    | nil => exact absurd rfl h
    | cons op rest ih =>
        cases op with
        | setHeader k v => simp only [firstStatus, List.cons_append] at h ⊢; exact ih h
        | writeHeader c => rfl
        | write d => rfl
  refine ⟨hmain, ?_, ?_⟩
  · intro ops
    rw [hmain]
    cases firstStatus ops <;> simp
  · intro pre c post h
    rw [hmain, happ pre (WOp.writeHeader c :: post) h]

/-- Witness for C6: an explicit 201, a body write, then a conflicting 500 —
only the 201 is transmitted. -/
theorem c6_single_status_forwarded_witness :
    forwardedStatuses (applyOps initTrack
      ([WOp.writeHeader 201, WOp.write "x"] ++ WOp.writeHeader 500 :: []))
      = [201] := by
  rw [c6_single_status_forwarded.2.2 [WOp.writeHeader 201, WOp.write "x"] 500 []
    (by decide)]
  decide

/-- **C5.** With a configured limit N > 0: a declared content length above N
is rejected with the 413 `http.Error` response before any router match or
handler involvement (the result is a constant independent of the router,
the routes and the handlers); otherwise dispatch proceeds with the
`MaxBytesReader` limiter installed, under which reading beyond N bytes
fails and a body of exactly N bytes is read intact; a zero or negative
limit disables both the declared-length check and the limiter. -/
theorem c5_body_limit :
    (∀ (h : Handler) (req : Request),
        h.bodyLimit > 0 → req.contentLength > h.bodyLimit →
        ServeHTTP h req
          = { track := httpError initTrack "Request body too large" 413,
              events := [], escaped := none })
    ∧ (∀ (h : Handler) (req : Request),
        h.bodyLimit > 0 → ¬ req.contentLength > h.bodyLimit →
        ServeHTTP h req
          = serveOptions h { req with bodyLimit := some h.bodyLimit } initTrack
        ∧ (limitReq h req).bodyLimit = some h.bodyLimit)
    ∧ (∀ (req : Request) (n : Int), req.bodyLimit = some n →
        ((∃ msg, readBody req = Except.error msg) ↔ (req.bodyLen : Int) > n))
    ∧ (∀ (req : Request) (n : Int), req.bodyLimit = some n →
        (req.bodyLen : Int) ≤ n → readBody req = Except.ok req.bodyLen)
    ∧ (∀ (h : Handler) (req : Request), h.bodyLimit ≤ 0 →
        ServeHTTP h req = serveOptions h req initTrack ∧ limitReq h req = req)
    ∧ (∀ req : Request, req.bodyLimit = none →
        readBody req = Except.ok req.bodyLen) := by
  refine ⟨?_, ?_, ?_, ?_, ?_, ?_⟩
  · intro h req hpos hlen
    unfold ServeHTTP
    rw [if_pos ⟨hpos, hlen⟩]
  · intro h req hpos hlen
    constructor
    · unfold ServeHTTP
      rw [if_neg (fun hc => hlen hc.2)]
      unfold limitReq
      rw [if_pos hpos]
    · unfold limitReq
      rw [if_pos hpos]
  · intro req n hsome
    unfold readBody
    rw [hsome]
    dsimp only
    by_cases hgt : (req.bodyLen : Int) > n
    · rw [if_pos hgt]
      exact ⟨fun _ => hgt, fun _ => ⟨_, rfl⟩⟩
    · rw [if_neg hgt]
      constructor
      · rintro ⟨msg, hmsg⟩
        exact absurd hmsg (by simp)
      · intro hh
        exact absurd hh hgt
  · intro req n hsome hle
    unfold readBody
    rw [hsome]
    dsimp only
    rw [if_neg (not_lt_of_le hle)]
  · intro h req hle
    have hneg : ¬ h.bodyLimit > 0 := not_lt_of_le hle
    constructor
    · unfold ServeHTTP
      rw [if_neg (fun hc => hneg hc.1)]
      unfold limitReq
      rw [if_neg hneg]
    · unfold limitReq
      rw [if_neg hneg]
  · intro req hnone
    unfold readBody
    rw [hnone]

/-- Witness for C5: with limit 5, a declared length of 6 yields the 413
rejection; a body of exactly 5 bytes reads intact under the limiter; 6
bytes fail; limit 0 leaves the request untouched. -/
theorem c5_body_limit_witness :
    ServeHTTP hLim { mkReq "GET" "/a" with contentLength := 6 }
      = { track := httpError initTrack "Request body too large" 413,
          events := [], escaped := none }
    ∧ readBody { mkReq "GET" "/a" with bodyLimit := some 5, bodyLen := 5 }
        = Except.ok 5
    ∧ (∃ msg, readBody { mkReq "GET" "/a" with bodyLimit := some 5, bodyLen := 6 }
        = Except.error msg)
    ∧ limitReq hA (mkReq "GET" "/a") = mkReq "GET" "/a" := by
  refine ⟨?_, ?_, ?_, ?_⟩
  · exact c5_body_limit.1 hLim _ (by decide) (by decide)
  · exact c5_body_limit.2.2.2.1 _ 5 rfl (by decide)
  · exact (c5_body_limit.2.2.1 _ 5 rfl).mpr (by decide)
  · exact (c5_body_limit.2.2.2.2.1 hA (mkReq "GET" "/a") (by decide)).2

theorem recovererRun_false (s : TrackState) (run : HandlerRun) :
    recovererRun s run false
      = match run.panics with
        | none => (applyOps s run.ops, [])
        | some v => (httpError (applyOps s run.ops) (statusText 500) 500,
            [panicEvent v]) := by
  have hfold : ∀ (ops : List WOp) (s0 : TrackState),
      ops.foldl (fun st op =>
        match op with
        | WOp.write d => if (false : Bool) = true then st
                         else applyOp st (WOp.write d)
        | _ => applyOp st op) s0 = applyOps s0 ops := by
    intro ops
    induction ops with
    | nil => intro s0; rfl
    | cons op rest ih =>
        intro s0
        cases op with
        | setHeader k v => exact ih (applyOp s0 (WOp.setHeader k v))
        | writeHeader c => exact ih (applyOp s0 (WOp.writeHeader c))
        | write d =>
            simp only [List.foldl_cons, applyOps, Bool.false_eq_true, if_false]
            exact ih (applyOp s0 (WOp.write d))
  unfold recovererRun
  rw [hfold]

/-- The writes-discarding fold of the HEAD branch equals the tracking fold
over the handler's non-write operations. -/
theorem recovererRun_true (s : TrackState) (run : HandlerRun) :
    recovererRun s run true
      = match run.panics with
        | none => (applyOps s (dropWrites run.ops), [])
        | some v => (httpError (applyOps s (dropWrites run.ops))
            (statusText 500) 500, [panicEvent v]) := by
  have hfold : ∀ (ops : List WOp) (s0 : TrackState),
      ops.foldl (fun st op =>
        match op with
        | WOp.write d => if (true : Bool) = true then st
                         else applyOp st (WOp.write d)
        | _ => applyOp st op) s0
        = applyOps s0 (ops.filter fun op =>
            match op with
            | WOp.write _ => false
            | _ => true) := by
    intro ops
    induction ops with
    | nil => intro s0; rfl
    | cons op rest ih =>
        intro s0
        cases op with
        | setHeader k v => exact ih (applyOp s0 (WOp.setHeader k v))
        | writeHeader c => exact ih (applyOp s0 (WOp.writeHeader c))
        | write d =>
            simp [List.foldl_cons, applyOps, List.filter_cons]
            exact ih s0
  unfold recovererRun
  rw [hfold]
  rfl

/-- **C4 counterexample.** The dispatch pipeline's `panicRecovery` attaches
only the recovered panic value: the event emitted when a matched handler
panics with "boom" carries data exactly {"panic": "boom"} — its only key is
"panic" — so the event does not carry any call-stack snapshot alongside the
value (no stack is captured on this path; a stack-capturing recovery exists
only in the legacy mux-based server file, which this dispatcher does not
call). -/
theorem c4_no_stack_counterexample :
    (ServeHTTP hBoom (mkReq "GET" "/boom")).events = [panicEvent "boom"]
    ∧ (panicEvent "boom").data = some [("panic", "boom")]
    ∧ ((panicEvent "boom").data.getD []).map Prod.fst = ["panic"] := by
  exact ⟨by decide, by decide, by decide⟩

/-- **C4 (amended).** For every matched handler that panics with any value:
the dispatch boundary recovers the panic — `ServeHTTP` yields a well-defined
result with no escaping panic — emits exactly one observability event whose
type is `event_panic` and which carries the captured panic value in both its
message and its data map (but no call-stack snapshot: none is captured by
this dispatcher), and completes the response through `http.Error` with the
generic 500 status text; when the handler had written nothing beforehand the
transmitted status is 500 with the constant generic body, and the body never
depends on the panic value. -/
theorem c4_panic_recovery_amended :
    (∀ (h : Handler) (req : Request) (m : Matched MHandler) (v : String),
        ¬ (h.bodyLimit > 0 ∧ req.contentLength > h.bodyLimit) →
        (limitReq h req).method ≠ "OPTIONS" →
        h.router.Match (limitReq h req).method (limitReq h req).path = some m →
        (m.handler (injectCtx h (limitReq h req) m.params)).panics = some v →
        ServeHTTP h req
          = { track := httpError (applyOps initTrack
                (m.handler (injectCtx h (limitReq h req) m.params)).ops)
                (statusText 500) 500,
              events := [panicEvent v], escaped := none })
    ∧ (∀ v, (panicEvent v).type = "event_panic"
        ∧ (panicEvent v).message = "Panic recovered: " ++ v
        ∧ (panicEvent v).data = some [("panic", v)])
    ∧ (∀ (run : HandlerRun) (v : String), run.panics = some v → run.ops = [] →
        statusOf (recovererRun initTrack run false).1 = some 500
        ∧ bodyOf (recovererRun initTrack run false).1
            = "Internal Server Error\n")
    ∧ (∀ (ops : List WOp) (v v' : String),
        bodyOf (recovererRun initTrack { ops := ops, panics := some v } false).1
          = bodyOf (recovererRun initTrack
              { ops := ops, panics := some v' } false).1) := by
  refine ⟨?_, fun v => ⟨rfl, rfl, rfl⟩, ?_, ?_⟩
  · intro h req m v hguard hopt hmatch hpanic
    unfold ServeHTTP
    rw [if_neg hguard]
    unfold serveOptions
    rw [if_neg hopt]
    unfold serveCont
    rw [hmatch]
    dsimp only
    rw [recovererRun_false, hpanic]
  · intro run v hpanic hops
    rw [recovererRun_false, hpanic, hops]
    exact ⟨rfl, rfl⟩
  · intro ops v v'
    rw [recovererRun_false, recovererRun_false]

/-- Witness for the amended C4: the concrete panicking route. -/
theorem c4_panic_recovery_amended_witness :
    ServeHTTP hBoom (mkReq "GET" "/boom")
      = { track := httpError (applyOps initTrack
            ((({ handler := boomHandler, params := some [] } :
                Matched MHandler)).handler
              (injectCtx hBoom (limitReq hBoom (mkReq "GET" "/boom"))
                (some []))).ops)
            (statusText 500) 500,
          events := [panicEvent "boom"], escaped := none } :=
  c4_panic_recovery_amended.1 hBoom (mkReq "GET" "/boom")
    { handler := boomHandler, params := some [] } "boom"
    (by decide) (by decide) rfl rfl

theorem findSome_eq_head_filterMap {α β : Type} (f : α → Option β)
    (l : List α) : l.findSome? f = (l.filterMap f).head? := by
  induction l with
  | nil => rfl
  | cons a rest ih =>
      rw [List.findSome?_cons, List.filterMap_cons]
      cases f a with
      | none => exact ih
      | some b => rfl

theorem statusOf_applyOps (ops : List WOp) :
    statusOf (applyOps initTrack ops) = firstStatus ops := by
  unfold statusOf
  rw [findSome_eq_head_filterMap, applyOps_out]
  rw [show initTrack.out ++ emitTrace ops initTrack.wroteHeader
      = emitTrace ops false from by simp [initTrack]]
  rw [show (emitTrace ops false).filterMap (fun op =>
      match op with
      | WOp.writeHeader c => some c
      | _ => none) = traceStatuses (emitTrace ops false) from rfl]
  rw [traceStatuses_emitTrace_false]
  cases firstStatus ops <;> rfl

theorem bodyFold_writeless (l : List WOp) (acc : String)
    (h : ∀ d, WOp.write d ∉ l) :
    l.foldl (fun acc op =>
      match op with
      | WOp.write d => acc ++ d
      | _ => acc) acc = acc := by
  induction l generalizing acc with
  | nil => rfl
  | cons op rest ih =>
      cases op with
      | setHeader k v =>
          exact ih acc fun d hd => h d (List.mem_cons_of_mem _ hd)
      | writeHeader c =>
          exact ih acc fun d hd => h d (List.mem_cons_of_mem _ hd)
      | write d =>
          exact absurd (List.mem_cons_self (WOp.write d) rest) (h d)

theorem bodyOf_of_writeless (t : TrackState)
    (h : ∀ d, WOp.write d ∉ t.out) : bodyOf t = "" :=
  bodyFold_writeless t.out "" h

theorem dropWrites_writeless (ops : List WOp) :
    ∀ d, WOp.write d ∉ dropWrites ops := by
  intro d hd
  have := (List.mem_filter.mp hd).2
  simp at this

theorem emitTrace_writeless (ops : List WOp) (f : Bool)
    (h : ∀ d, WOp.write d ∉ ops) : ∀ d, WOp.write d ∉ emitTrace ops f := by
  induction ops generalizing f with
  | nil => intro d hd; exact absurd hd (List.not_mem_nil _)
  | cons op rest ih =>
      intro d hd
      cases op with
      | setHeader k v =>
          rw [show emitTrace (WOp.setHeader k v :: rest) f
              = WOp.setHeader k v :: emitTrace rest f from rfl] at hd
          rcases List.mem_cons.mp hd with hh | hh
          · exact absurd hh (by simp)
          · exact ih f (fun d' hd' => h d' (List.mem_cons_of_mem _ hd')) d hh
      | writeHeader c =>
          unfold emitTrace at hd
          cases f with
          | true =>
              rw [if_pos rfl] at hd
              exact ih true (fun d' hd' => h d' (List.mem_cons_of_mem _ hd')) d hd
          | false =>
              rw [if_neg (by simp)] at hd
              rcases List.mem_cons.mp hd with hh | hh
              · exact absurd hh (by simp)
              · exact ih true (fun d' hd' => h d' (List.mem_cons_of_mem _ hd')) d hh
      | write d' =>
          exact absurd (List.mem_cons_self (WOp.write d') rest) (h d')

theorem firstStatus_dropWrites (ops : List WOp)
    (h : noWriteBeforeStatus ops = true) :
    firstStatus (dropWrites ops) = firstStatus ops := by
  induction ops with
  | nil => rfl
  | cons op rest ih =>
      cases op with
      | setHeader k v =>
          rw [show dropWrites (WOp.setHeader k v :: rest)
              = WOp.setHeader k v :: dropWrites rest from rfl]
          rw [show firstStatus (WOp.setHeader k v :: dropWrites rest)
              = firstStatus (dropWrites rest) from rfl]
          exact ih (by simpa [noWriteBeforeStatus] using h)
      | writeHeader c => rfl
      | write d => exact absurd h (by simp [noWriteBeforeStatus])

theorem headersOf_eq_hdrPrefix (t : TrackState) :
    headersOf t = (hdrPrefix t.out).foldl
      (fun hm op =>
        match op with
        | WOp.setHeader k v => mapSet hm k v
        | _ => hm) [] := rfl

theorem hdrPrefix_emit_dropWrites (ops : List WOp)
    (h : noWriteBeforeStatus ops = true) :
    hdrPrefix (emitTrace ops false)
      = hdrPrefix (emitTrace (dropWrites ops) false) := by
  induction ops with
  | nil => rfl
  | cons op rest ih =>
      cases op with
      | setHeader k v =>
          rw [show emitTrace (WOp.setHeader k v :: rest) false
              = WOp.setHeader k v :: emitTrace rest false from rfl]
          rw [show dropWrites (WOp.setHeader k v :: rest)
              = WOp.setHeader k v :: dropWrites rest from rfl]
          rw [show emitTrace (WOp.setHeader k v :: dropWrites rest) false
              = WOp.setHeader k v :: emitTrace (dropWrites rest) false from rfl]
          rw [show hdrPrefix (WOp.setHeader k v :: emitTrace rest false)
              = WOp.setHeader k v :: hdrPrefix (emitTrace rest false) from rfl]
          rw [show hdrPrefix (WOp.setHeader k v ::
                emitTrace (dropWrites rest) false)
              = WOp.setHeader k v :: hdrPrefix (emitTrace (dropWrites rest) false)
              from rfl]
          rw [ih (by simpa [noWriteBeforeStatus] using h)]
      | writeHeader c =>
          rw [show emitTrace (WOp.writeHeader c :: rest) false
              = WOp.writeHeader c :: emitTrace rest true from rfl]
          rw [show dropWrites (WOp.writeHeader c :: rest)
              = WOp.writeHeader c :: dropWrites rest from rfl]
          rw [show emitTrace (WOp.writeHeader c :: dropWrites rest) false
              = WOp.writeHeader c :: emitTrace (dropWrites rest) true from rfl]
          rfl
      | write d => exact absurd h (by simp [noWriteBeforeStatus])

theorem limitReq_method (h : Handler) (req : Request) :
    (limitReq h req).method = req.method := by
  unfold limitReq; split <;> rfl

theorem limitReq_path (h : Handler) (req : Request) :
    (limitReq h req).path = req.path := by
  unfold limitReq; split <;> rfl

theorem limitReq_contentLength (h : Handler) (req : Request) :
    (limitReq h req).contentLength = req.contentLength := by
  unfold limitReq; split <;> rfl

theorem limitReq_setMethod (h : Handler) (req : Request) (m : String) :
    limitReq h { req with method := m } = { limitReq h req with method := m } := by
  unfold limitReq; split <;> rfl

/-- **C7 counterexample.** A GET route whose handler writes a body byte and
then attempts `WriteHeader(500)`: the direct GET response commits the
implicit 200 at the first body write, but under the HEAD fallback the body
write is discarded, so nothing commits the status and the later explicit
500 *is* forwarded — the HEAD response does not carry the GET response's
status, refuting the claim's unqualified "the response carries the GET
route's status and headers". -/
theorem c7_head_fallback_counterexample :
    statusOf (ServeHTTP hLate (mkReq "GET" "/r")).track = some 200
    ∧ statusOf (ServeHTTP hLate (mkReq "HEAD" "/r")).track = some 500
    ∧ statusOf (ServeHTTP hLate (mkReq "HEAD" "/r")).track
        ≠ statusOf (ServeHTTP hLate (mkReq "GET" "/r")).track := by
  exact ⟨by decide, by decide, by decide⟩

/-- **C7 (amended).** For every HEAD request whose path has no HEAD route
but matches a GET route: the dispatcher invokes the GET route's handler
with the request's method converted to GET, behind a sink that forwards
header and status writes but discards all body writes; consequently, when
the handler does not panic the response body is empty, and — provided the
handler commits its status before any body write (the discarding sink
shifts the implicit-200 commit point otherwise) — the response carries
exactly the status and headers of the direct GET dispatch. -/
theorem c7_head_fallback_amended (h : Handler) (req : Request)
    (m2 : Matched MHandler)
    (hguard : ¬ (h.bodyLimit > 0 ∧ req.contentLength > h.bodyLimit))
    (hmethod : req.method = "HEAD")
    (hnoHead : h.router.Match "HEAD" req.path = none)
    (hGET : h.router.Match "GET" req.path = some m2) :
    (ServeHTTP h req
      = { track := (recovererRun initTrack
            (m2.handler (injectCtx h { limitReq h req with method := "GET" }
              m2.params)) true).1,
          events := (recovererRun initTrack
            (m2.handler (injectCtx h { limitReq h req with method := "GET" }
              m2.params)) true).2,
          escaped := none }
     ∧ (injectCtx h { limitReq h req with method := "GET" } m2.params).method
         = "GET")
    ∧ ((m2.handler (injectCtx h { limitReq h req with method := "GET" }
          m2.params)).panics = none →
        bodyOf (ServeHTTP h req).track = "")
    ∧ ((m2.handler (injectCtx h { limitReq h req with method := "GET" }
          m2.params)).panics = none →
        noWriteBeforeStatus (m2.handler (injectCtx h
          { limitReq h req with method := "GET" } m2.params)).ops = true →
        statusOf (ServeHTTP h req).track
          = statusOf (ServeHTTP h { req with method := "GET" }).track
        ∧ headersOf (ServeHTTP h req).track
          = headersOf (ServeHTTP h { req with method := "GET" }).track) := by
  have hmain : ServeHTTP h req
      = { track := (recovererRun initTrack
            (m2.handler (injectCtx h { limitReq h req with method := "GET" }
              m2.params)) true).1,
          events := (recovererRun initTrack
            (m2.handler (injectCtx h { limitReq h req with method := "GET" }
              m2.params)) true).2,
          escaped := none } := by
    unfold ServeHTTP
    rw [if_neg hguard]
    unfold serveOptions
    rw [if_neg (by rw [limitReq_method, hmethod]; decide)]
    unfold serveCont
    rw [limitReq_method, limitReq_path, hmethod, hnoHead]
    dsimp only
    rw [if_pos rfl, limitReq_path, hGET]
  have hget : ServeHTTP h { req with method := "GET" }
      = { track := (recovererRun initTrack
            (m2.handler (injectCtx h { limitReq h req with method := "GET" }
              m2.params)) false).1,
          events := (recovererRun initTrack
            (m2.handler (injectCtx h { limitReq h req with method := "GET" }
              m2.params)) false).2,
          escaped := none } := by
    unfold ServeHTTP
    rw [if_neg (by
      intro hc
      exact hguard ⟨hc.1, hc.2⟩)]
    unfold serveOptions
    rw [limitReq_setMethod]
    have hgm : ({ limitReq h req with method := "GET" } : Request).method
        = "GET" := rfl
    rw [if_neg (by rw [hgm]; decide)]
    unfold serveCont
    rw [show ({ limitReq h req with method := "GET" } : Request).method
        = "GET" from rfl]
    rw [show ({ limitReq h req with method := "GET" } : Request).path
        = req.path from by rw [show ({ limitReq h req with method := "GET" } :
          Request).path = (limitReq h req).path from rfl, limitReq_path]]
    rw [hGET]
  have hmethod2 : (injectCtx h { limitReq h req with method := "GET" }
      m2.params).method = "GET" := by
    unfold injectCtx
    cases m2.params with
    | none => rfl
    | some ps =>
        dsimp only
        by_cases hl : ps.length > 0
        · rw [if_pos hl]
        · rw [if_neg hl]
  refine ⟨⟨hmain, hmethod2⟩, ?_, ?_⟩
  · intro hnop
    rw [hmain]
    dsimp only
    rw [recovererRun_true, hnop]
    dsimp only
    refine bodyOf_of_writeless _ ?_
    intro d
    rw [applyOps_out]
    rw [show initTrack.out = [] from rfl, List.nil_append]
    exact emitTrace_writeless _ _ (dropWrites_writeless _) d
  · intro hnop hnw
    rw [hmain, hget]
    dsimp only
    rw [recovererRun_true, recovererRun_false, hnop]
    dsimp only
    constructor
    · rw [statusOf_applyOps, statusOf_applyOps, firstStatus_dropWrites _ hnw]
    · rw [headersOf_eq_hdrPrefix, headersOf_eq_hdrPrefix, applyOps_out,
        applyOps_out,
        show initTrack.out = [] from rfl, List.nil_append, List.nil_append,
        show initTrack.wroteHeader = false from rfl,
        hdrPrefix_emit_dropWrites _ hnw]

/-- Witness for the amended C7: the well-behaved route `/a` answers HEAD
with the GET status and headers and an empty body. -/
theorem c7_head_fallback_amended_witness :
    bodyOf (ServeHTTP hA (mkReq "HEAD" "/a")).track = ""
    ∧ statusOf (ServeHTTP hA (mkReq "HEAD" "/a")).track
        = statusOf (ServeHTTP hA { mkReq "HEAD" "/a" with method := "GET" }).track
    ∧ headersOf (ServeHTTP hA (mkReq "HEAD" "/a")).track
        = headersOf (ServeHTTP hA { mkReq "HEAD" "/a" with method := "GET" }).track := by
  have h := c7_head_fallback_amended hA (mkReq "HEAD" "/a")
    { handler := okHandler, params := some [] } (by decide) rfl rfl rfl
  exact ⟨h.2.1 rfl, (h.2.2 rfl (by decide)).1, (h.2.2 rfl (by decide)).2⟩

/-- **C8 counterexample.** With GET `/a` registered, an OPTIONS request to
`/a//` has an empty allowed-methods set (the router's `MethodsFor` misses:
the exact table compares the raw path string), so per the claim it should
fall through to not-found handling; but the dispatch index's own matcher
trims slashes, deems the path method-not-allowed, and the request is
answered 405 — not by the not-found handler. -/
theorem c8_options_counterexample :
    allowedMethods hA "/a//" = []
    ∧ statusOf (ServeHTTP hA (mkReq "OPTIONS" "/a//")).track = some 405
    ∧ bodyOf (ServeHTTP hA (mkReq "OPTIONS" "/a//")).track
        = "Method Not Allowed\n"
    ∧ (ServeHTTP hA (mkReq "OPTIONS" "/a//")).track
        ≠ applyOps initTrack (hA.notFound (mkReq "OPTIONS" "/a//")).ops := by
  exact ⟨by decide, by decide, by decide, by decide⟩

/-- **C8 (amended).** For every OPTIONS request: a matching explicitly
registered OPTIONS route runs exactly like any other matched route
(query/params injection and panic guard included — the result coincides
with the normal-dispatch continuation `serveCont`); otherwise, a non-empty
allowed-methods set yields the synthesized no-body 204 with the
deterministic comma-joined `Allow` header; and an empty set falls through
to the normal unmatched-request tail `serveNoMatch`, which answers 405 when
the dispatch-level registered-route index matches the path under its own
(slash-trimming) rules and only otherwise delegates to the not-found
handler. -/
theorem c8_options_amended :
    (∀ (h : Handler) (req : Request) (m : Matched MHandler),
        ¬ (h.bodyLimit > 0 ∧ req.contentLength > h.bodyLimit) →
        req.method = "OPTIONS" →
        h.router.Match "OPTIONS" req.path = some m →
        ServeHTTP h req
          = { track := (recovererRun initTrack (m.handler
                (injectCtx h (limitReq h req) m.params)) false).1,
              events := (recovererRun initTrack (m.handler
                (injectCtx h (limitReq h req) m.params)) false).2,
              escaped := none }
        ∧ ServeHTTP h req = serveCont h (limitReq h req) initTrack)
    ∧ (∀ (h : Handler) (req : Request),
        ¬ (h.bodyLimit > 0 ∧ req.contentLength > h.bodyLimit) →
        req.method = "OPTIONS" →
        h.router.Match "OPTIONS" req.path = none →
        allowedMethods h req.path ≠ [] →
        ServeHTTP h req
          = { track := twWriteHeader (twSetHeader initTrack "Allow"
                (joinAllow (allowedMethods h req.path))) 204,
              events := [], escaped := none }
        ∧ bodyOf (ServeHTTP h req).track = ""
        ∧ statusOf (ServeHTTP h req).track = some 204)
    ∧ (∀ (h : Handler) (req : Request),
        ¬ (h.bodyLimit > 0 ∧ req.contentLength > h.bodyLimit) →
        req.method = "OPTIONS" →
        h.router.Match "OPTIONS" req.path = none →
        allowedMethods h req.path = [] →
        ServeHTTP h req = serveNoMatch h (limitReq h req) initTrack) := by
  refine ⟨?_, ?_, ?_⟩
  · intro h req m hguard hmethod hmatch
    have hm' : (limitReq h req).method = "OPTIONS" := by
      rw [limitReq_method, hmethod]
    have hmm : h.router.Match (limitReq h req).method (limitReq h req).path
        = some m := by
      rw [limitReq_method, limitReq_path, hmethod, hmatch]
    constructor
    · unfold ServeHTTP
      rw [if_neg hguard]
      unfold serveOptions
      rw [if_pos hm', hmm]
    · unfold ServeHTTP
      rw [if_neg hguard]
      unfold serveOptions serveCont
      rw [if_pos hm', hmm]
  · intro h req hguard hmethod hmatch hallow
    have hm' : (limitReq h req).method = "OPTIONS" := by
      rw [limitReq_method, hmethod]
    have hmm : h.router.Match (limitReq h req).method (limitReq h req).path
        = none := by
      rw [limitReq_method, limitReq_path, hmethod, hmatch]
    have hlen : (allowedMethods h (limitReq h req).path).length > 0 := by
      rw [limitReq_path]
      cases hc : allowedMethods h req.path with
      | nil => exact absurd hc hallow
      | cons a l => simp
    have hmain : ServeHTTP h req
        = { track := twWriteHeader (twSetHeader initTrack "Allow"
              (joinAllow (allowedMethods h req.path))) 204,
            events := [], escaped := none } := by
      unfold ServeHTTP
      rw [if_neg hguard]
      unfold serveOptions
      rw [if_pos hm', hmm]
      dsimp only
      rw [if_pos hlen, limitReq_path]
    refine ⟨hmain, ?_, ?_⟩
    · rw [hmain]
      rfl
    · rw [hmain]
      rfl
  · intro h req hguard hmethod hmatch hallow
    have hm' : (limitReq h req).method = "OPTIONS" := by
      rw [limitReq_method, hmethod]
    have hmm : h.router.Match (limitReq h req).method (limitReq h req).path
        = none := by
      rw [limitReq_method, limitReq_path, hmethod, hmatch]
    have hlen : ¬ (allowedMethods h (limitReq h req).path).length > 0 := by
      rw [limitReq_path, hallow]
      simp
    unfold ServeHTTP
    rw [if_neg hguard]
    unfold serveOptions
    rw [if_pos hm', hmm]
    dsimp only
    rw [if_neg hlen]
    unfold serveCont
    rw [hmm]
    dsimp only
    rw [if_neg (by rw [hm']; decide)]

/-- Witness for the amended C8 at concrete inputs: an explicit OPTIONS
route dispatches like a normal match; GET-only `/a` synthesizes 204 with an
`Allow` header; an unknown path falls through to the unmatched tail. -/
theorem c8_options_amended_witness :
    ServeHTTP hOpt (mkReq "OPTIONS" "/o")
      = serveCont hOpt (limitReq hOpt (mkReq "OPTIONS" "/o")) initTrack
    ∧ ServeHTTP hA (mkReq "OPTIONS" "/a")
        = { track := twWriteHeader (twSetHeader initTrack "Allow"
              (joinAllow (allowedMethods hA "/a"))) 204,
            events := [], escaped := none }
    ∧ ServeHTTP hA (mkReq "OPTIONS" "/zzz")
        = serveNoMatch hA (limitReq hA (mkReq "OPTIONS" "/zzz")) initTrack := by
  refine ⟨?_, ?_, ?_⟩
  · exact (c8_options_amended.1 hOpt (mkReq "OPTIONS" "/o")
      { handler := okHandler, params := some [] }
      (by decide) rfl rfl).2
  · exact (c8_options_amended.2.1 hA (mkReq "OPTIONS" "/a")
      (by decide) rfl rfl (by decide)).1
  · exact c8_options_amended.2.2 hA (mkReq "OPTIONS" "/zzz")
      (by decide) rfl rfl (by decide)
